import Mathlib

/- Verification of the FinSight text-to-time-series extraction module
   (src/finsight/plotgraph.py): the interval classifier, the key normalizer,
   the series extractor (both successive definitions), the structured
   serializer and the ASCII renderer.

   Modelling conventions.  Python strings are Lean strings (lists of
   characters, ASCII model of the character classes), Python floats are
   exact rationals, Python dicts are insertion-ordered association lists.
   Each regular expression used by the module is hand-compiled into a
   character-list scanner that reproduces the leftmost-match and
   greedy/lazy backtracking behaviour of the Python re engine on that
   specific pattern.  Fallible operations of the ASCII renderer (list
   indexing, division) are modelled in an Except monad, so absence of
   runtime errors is a provable statement. -/

namespace FinSight

/-- Python digit class (ASCII model). -/
def isDigitC (c : Char) : Bool := c.isDigit

/-- Python word-character class (ASCII model), used for word boundaries. -/
def isWordC (c : Char) : Bool := c.isAlphanum || c = '_'

/-- Python whitespace class (ASCII model). -/
def isPySpace (c : Char) : Bool :=
  c = ' ' || c = '\t' || c = '\n' || c = '\r' || c = Char.ofNat 11 || c = Char.ofNat 12

/-- Case-insensitive character comparison, for re.IGNORECASE (ASCII model). -/
def lcEq (a b : Char) : Bool := a.toLower = b.toLower

/-- The second half of a word-boundary check placed after a word character:
the next character is not a word character, or the string ends. -/
def boundaryAfter (cs : List Char) : Bool :=
  match cs with
  | [] => true
  | c :: _ => !isWordC c

/-- Tail of the quarter token of the classifier: one or more whitespace
characters, then four digits, then a word boundary.  The whitespace run is
taken maximally; giving characters back cannot help, because a digit can
never match a whitespace position. -/
def spacesThenYear (cs : List Char) : Bool :=
  match cs with
  | c :: rest =>
    if isPySpace c then
      match rest.dropWhile isPySpace with
      | a :: b :: c2 :: d :: rest2 =>
        isDigitC a && isDigitC b && isDigitC c2 && isDigitC d && boundaryAfter rest2
      | _ => false
    else false
  | [] => false

/-- Match of the classifier quarter token (letter Q, a digit, whitespace,
a four-digit year, enclosed in word boundaries, case-insensitive) at the
current position; prevW says whether the previous character is a word
character. -/
def quarterTokAt (prevW : Bool) (cs : List Char) : Bool :=
  match cs with
  | q :: d :: rest => !prevW && lcEq q 'Q' && isDigitC d && spacesThenYear rest
  | _ => false

/-- Scan of the whole text for the classifier quarter token. -/
def searchQuarterAux : Bool → List Char → Bool
  | _, [] => false
  | prevW, c :: rest => quarterTokAt prevW (c :: rest) || searchQuarterAux (isWordC c) rest

def searchQuarter (cs : List Char) : Bool := searchQuarterAux false cs

/-- Match of a bare four-digit number enclosed in word boundaries at the
current position. -/
def year4At (prevW : Bool) (cs : List Char) : Bool :=
  match cs with
  | a :: b :: c :: d :: rest =>
    !prevW && isDigitC a && isDigitC b && isDigitC c && isDigitC d && boundaryAfter rest
  | _ => false

/-- Scan of the whole text for a bare four-digit number. -/
def searchYear4Aux : Bool → List Char → Bool
  | _, [] => false
  | prevW, c :: rest => year4At prevW (c :: rest) || searchYear4Aux (isWordC c) rest

def searchYear4 (cs : List Char) : Bool := searchYear4Aux false cs

/-- Match of a two-digit-hour clock token (two digits, colon, two digits,
word boundaries) at the current position. -/
def hhmm2At (prevW : Bool) (cs : List Char) : Bool :=
  match cs with
  | a :: b :: c :: d :: e :: rest =>
    !prevW && isDigitC a && isDigitC b && c = ':' && isDigitC d && isDigitC e &&
      boundaryAfter rest
  | _ => false

/-- Scan of the whole text for a two-digit-hour clock token. -/
def searchHHMM2Aux : Bool → List Char → Bool
  | _, [] => false
  | prevW, c :: rest => hhmm2At prevW (c :: rest) || searchHHMM2Aux (isWordC c) rest

def searchHHMM2 (cs : List Char) : Bool := searchHHMM2Aux false cs

/-- Day part of the slash token: one or two digits followed by a word
boundary.  When two digits are available the greedy first try must also
place the boundary after them; retrying with one digit cannot succeed
because the given-back digit is itself a word character. -/
def daySecondPart (cs : List Char) : Bool :=
  match cs with
  | a :: b :: rest =>
    if isDigitC a && isDigitC b then boundaryAfter rest
    else isDigitC a && !isWordC b
  | [a] => isDigitC a
  | [] => false

/-- Match of the slash day token (one or two digits, a slash, one or two
digits, word boundaries) at the current position.  The two alternatives for
the month width are mutually exclusive: the one-digit reading needs a slash
where the two-digit reading found a digit. -/
def daySlashAt (prevW : Bool) (cs : List Char) : Bool :=
  if prevW then false else
  match cs with
  | a :: b :: c :: rest =>
    if isDigitC a && isDigitC b && c = '/' then daySecondPart rest
    else if isDigitC a && b = '/' then daySecondPart (c :: rest)
    else false
  | _ => false

/-- Scan of the whole text for the slash day token. -/
def searchDayAux : Bool → List Char → Bool
  | _, [] => false
  | prevW, c :: rest => daySlashAt prevW (c :: rest) || searchDayAux (isWordC c) rest

def searchDay (cs : List Char) : Bool := searchDayAux false cs

/-- Match of a one-or-two-digit-hour clock token (word boundaries) at the
current position, returning the matched characters and the remaining text.
As with the day token, the hour-width alternatives are mutually
exclusive. -/
def hmmTokAt (prevW : Bool) (cs : List Char) : Option (List Char × List Char) :=
  if prevW then none else
  match cs with
  | a :: b :: c :: d :: rest =>
    if isDigitC a && isDigitC b && c = ':' && isDigitC d then
      match rest with
      | e :: rest2 =>
        if isDigitC e && boundaryAfter rest2 then some ([a, b, c, d, e], rest2) else none
      | [] => none
    else if isDigitC a && b = ':' && isDigitC c && isDigitC d && boundaryAfter rest then
      some ([a, b, c, d], rest)
    else none
  | _ => none

/-- Scan of the whole text for a clock token. -/
def searchHMMAux : Bool → List Char → Bool
  | _, [] => false
  | prevW, c :: rest => (hmmTokAt prevW (c :: rest)).isSome || searchHMMAux (isWordC c) rest

def searchHMM (cs : List Char) : Bool := searchHMMAux false cs

/-- All non-overlapping clock tokens, scanning left to right and resuming
after each match, as re.findall does.  The fuel argument bounds the number
of scanning steps; every step consumes at least one character, so a fuel of
the text length is sufficient. -/
def findallHMMAux : Nat → Bool → List Char → List String
  | 0, _, _ => []
  | _ + 1, _, [] => []
  | fuel + 1, prevW, c :: rest =>
    match hmmTokAt prevW (c :: rest) with
    | some (tok, rest2) => String.mk tok :: findallHMMAux fuel true rest2
    | none => findallHMMAux fuel (isWordC c) rest

def findallHMM (cs : List Char) : List String := findallHMMAux cs.length false cs

/-- Python endswith for the three-character suffix colon-zero-zero. -/
def endsColon00 (s : String) : Bool := s.data.reverse.take 3 = ['0', '0', ':']

/-- detect_time_pattern from plotgraph.py: classify the text into a key
format and a granularity, checking quarter, then bare year, then slash day,
then clock tokens with the on-the-hour majority vote, with a minute
fallback. -/
def detect_time_pattern (text : String) : String × String :=
  let cs := text.data
  if searchQuarter cs then ("%Y-Q", "quarter")
  else if searchYear4 cs && !searchHHMM2 cs then ("%Y", "year")
  else if searchDay cs then ("%m/%d", "day")
  else if searchHMM cs then
    let ms := findallHMM cs
    if !ms.isEmpty then
      let hour_matches := (ms.filter endsColon00).length
      if hour_matches ≥ max 1 (ms.length / 2) then ("%H:%M", "hour")
      else ("%H:%M", "minute")
    else ("%H:%M", "minute")
  else ("%H:%M", "minute")

/-- Decimal digit characters of a natural number, as the Python str/format
conversion produces them.  Structural recursion on a fuel bound (one decimal
digit is produced per step, so a fuel of n + 1 is always sufficient). -/
def natCharsAux : Nat → Nat → List Char
  | 0, _ => []
  | fuel + 1, n =>
    if n < 10 then [Nat.digitChar n]
    else natCharsAux fuel (n / 10) ++ [Nat.digitChar (n % 10)]

def natChars (n : Nat) : List Char := natCharsAux (n + 1) n

/-- Zero-padded two-digit decimal formatting, as the 02d format spec. -/
def pad2c (n : Nat) : List Char :=
  if n < 10 then '0' :: natChars n else natChars n

/-- Python str.strip: remove leading and trailing whitespace. -/
def pyStrip (s : String) : String :=
  String.mk (((s.data.dropWhile isPySpace).reverse.dropWhile isPySpace).reverse)

/-- Numeric value of a list of decimal digit characters (int conversion of
a regex group known to hold digits only). -/
def natValD (ds : List Char) : Nat :=
  ds.foldl (fun n c => n * 10 + (c.toNat - 48)) 0

/-- Key-normalizer search for the letter Q followed by a captured digit
(case-insensitive, no word boundary). -/
def findQdigit : List Char → Option Char
  | [] => none
  | q :: rest =>
    match rest with
    | d :: _ => if lcEq q 'Q' && isDigitC d then some d else findQdigit rest
    | [] => none

/-- Key-normalizer search for the first run of four consecutive digits
(no word boundary). -/
def find4Run : List Char → Option (List Char)
  | [] => none
  | c :: rest =>
    match c :: rest with
    | a :: b :: c2 :: d :: _ =>
      if isDigitC a && isDigitC b && isDigitC c2 && isDigitC d then some [a, b, c2, d]
      else find4Run rest
    | _ => none

/-- Key-normalizer anchored match of one or two digits, a colon and two
digits, returning the int conversions of the two groups.  The hour-width
alternatives are mutually exclusive. -/
def matchHMMstart (cs : List Char) : Option (Nat × Nat) :=
  match cs with
  | a :: b :: c :: d :: rest =>
    if isDigitC a && isDigitC b && c = ':' && isDigitC d then
      match rest with
      | e :: _ => if isDigitC e then some (natValD [a, b], natValD [d, e]) else none
      | [] => none
    else if isDigitC a && b = ':' && isDigitC c && isDigitC d then
      some (natValD [a], natValD [c, d])
    else none
  | _ => none

/-- Key-normalizer anchored match of one or two digits, a slash and one or
two greedy digits, returning the int conversions of the two groups. -/
def matchDayStart (cs : List Char) : Option (Nat × Nat) :=
  match cs with
  | a :: b :: c :: rest =>
    if isDigitC a && isDigitC b && c = '/' then
      match rest with
      | x :: y :: _ =>
        if isDigitC x && isDigitC y then some (natValD [a, b], natValD [x, y])
        else if isDigitC x then some (natValD [a, b], natValD [x])
        else none
      | [x] => if isDigitC x then some (natValD [a, b], natValD [x]) else none
      | [] => none
    else if isDigitC a && b = '/' then
      match c :: rest with
      | x :: y :: _ =>
        if isDigitC x && isDigitC y then some (natValD [a], natValD [x, y])
        else if isDigitC x then some (natValD [a], natValD [x])
        else none
      | [x] => if isDigitC x then some (natValD [a], natValD [x]) else none
      | [] => none
    else none
  | _ => none

/-- parse_time_value from plotgraph.py, the key normalizer: produce a
canonical sortable key for the given format tag, falling back to the
stripped raw token whenever the format-specific sub-pattern does not
match (the nothing-raises contract is the totality of this function). -/
def parse_time_value (time_str : String) (fmt : String) : String :=
  let cs := time_str.data
  if fmt = "%Y-Q" then
    match findQdigit cs, find4Run cs with
    | some q, some y => String.mk (y ++ '-' :: 'Q' :: [q])
    | _, _ => pyStrip time_str
  else if fmt = "%H:%M" then
    match matchHMMstart cs with
    | some (hh, mm) => String.mk (pad2c hh ++ ':' :: pad2c mm)
    | none => pyStrip time_str
  else if fmt = "%m/%d" then
    match matchDayStart cs with
    | some (mm, dd) => String.mk (pad2c mm ++ '/' :: pad2c dd)
    | none => pyStrip time_str
  else if fmt = "%Y" then
    match find4Run cs with
    | some y => String.mk y
    | none => pyStrip time_str
  else pyStrip time_str

/-- PlottableData from plotgraph.py.  The insertion-ordered dict of keyed
values is an association list with unique keys. -/
structure PlottableData where
  title : String
  x_label : String
  y_label : String
  data : List (String × Rat)
  interval : Option String
deriving DecidableEq

/-- The space-or-colon class between the marker word and the number. -/
def isSpaceColon (c : Char) : Bool := isPySpace c || c = ':'

/-- The digit-comma-dot class of the numeric capture. -/
def isNumChar (c : Char) : Bool := isDigitC c || c = ',' || c = '.'

/-- Case-insensitive match of one of the literal markers Close, Price or
Value (all five characters long, with distinct first letters, so at most
one alternative can match at a position), returning the remaining text. -/
def markerAt (cs : List Char) : Option (List Char) :=
  match cs with
  | a :: b :: c :: d :: e :: rest =>
    if (lcEq a 'C' && lcEq b 'l' && lcEq c 'o' && lcEq d 's' && lcEq e 'e')
        || (lcEq a 'P' && lcEq b 'r' && lcEq c 'i' && lcEq d 'c' && lcEq e 'e')
        || (lcEq a 'V' && lcEq b 'a' && lcEq c 'l' && lcEq d 'u' && lcEq e 'e') then
      some rest
    else none
  | _ => none

/-- After the marker: one or more space-or-colon characters, then the
greedy numeric capture of one or more digit-comma-dot characters.  The two
classes are disjoint, so maximal munch is exact; both runs must be
nonempty. -/
def afterMarker (cs : List Char) : Option (List Char × List Char) :=
  match cs with
  | c :: rest =>
    if isSpaceColon c then
      let rest2 := rest.dropWhile isSpaceColon
      let num := rest2.takeWhile isNumChar
      if num.isEmpty then none else some (num, rest2.drop num.length)
    else none
  | [] => none

/-- The year-pattern suffix: the letters i l l i o, then an optional n
(only the final n is optional in the source regex, not the whole word). -/
def illionAt (cs : List Char) : Option (List Char) :=
  match cs with
  | i1 :: l1 :: l2 :: i2 :: o :: rest =>
    if lcEq i1 'i' && lcEq l1 'l' && lcEq l2 'l' && lcEq i2 'i' && lcEq o 'o' then
      match rest with
      | n :: rest2 => if lcEq n 'n' then some rest2 else some rest
      | [] => some rest
    else none
  | _ => none

/-- The year-pattern suffix with its optional leading B or b.  If the
leading letter is present but the rest fails, retrying without it also
fails (the letter i cannot match a B), so no further backtracking is
needed. -/
def billSuffix (cs : List Char) : Option (List Char) :=
  match cs with
  | b :: rest => if lcEq b 'B' then illionAt rest else illionAt cs
  | [] => none

/-- The lazy tail shared by all extraction patterns: a lazy any-character
gap (the dot does not match a newline), then a marker word, space-or-colon
characters and the numeric capture; for the year pattern additionally the
billion suffix.  The gap is extended one character at a time, exactly as
the lazy quantifier backtracks: whenever the marker or what follows it
fails at a position, scanning resumes one character further, provided the
skipped character is not a newline. -/
def tailScan (needSuffix : Bool) : List Char → Option (List Char × List Char)
  | [] => none
  | c :: rest =>
    match markerAt (c :: rest) with
    | some afterM =>
      match afterMarker afterM with
      | some (num, rest2) =>
        if needSuffix then
          match billSuffix rest2 with
          | some rest3 => some (num, rest3)
          | none => if c = '\n' then none else tailScan needSuffix rest
        else some (num, rest2)
      | none => if c = '\n' then none else tailScan needSuffix rest
    | none => if c = '\n' then none else tailScan needSuffix rest

/-- Head of the one-or-two-digit-hour clock extraction group (no word
boundaries).  A failed two-digit reading cannot be rescued by the one-digit
one (it would need a colon where a digit stands), and vice versa. -/
def headMinute2 (cs : List Char) : Option (List Char × List Char) :=
  match cs with
  | a :: b :: c :: d :: rest =>
    if isDigitC a && isDigitC b && c = ':' && isDigitC d then
      match rest with
      | e :: rest2 => if isDigitC e then some ([a, b, c, d, e], rest2) else none
      | [] => none
    else if isDigitC a && b = ':' && isDigitC c && isDigitC d then
      some ([a, b, c, d], rest)
    else none
  | _ => none

/-- Head of the first-revision minute group: exactly two digits, colon,
two digits. -/
def headMinute1 (cs : List Char) : Option (List Char × List Char) :=
  match cs with
  | a :: b :: c :: d :: e :: rest =>
    if isDigitC a && isDigitC b && c = ':' && isDigitC d && isDigitC e then
      some ([a, b, c, d, e], rest)
    else none
  | _ => none

/-- Head of the first-revision hour group: two digits, colon, the literal
zero zero. -/
def headHour1 (cs : List Char) : Option (List Char × List Char) :=
  match cs with
  | a :: b :: c :: d :: e :: rest =>
    if isDigitC a && isDigitC b && c = ':' && d = '0' && e = '0' then
      some ([a, b, c, d, e], rest)
    else none
  | _ => none

/-- Day part of the slash extraction group: one or two greedy digits, with
no constraint after the group (the lazy gap of the tail absorbs any
following character, and a marker word cannot start at a digit, so the
greedy maximal reading is exact). -/
def daySlashTail (acc : List Char) (cs : List Char) : Option (List Char × List Char) :=
  match cs with
  | x :: y :: rest =>
    if isDigitC x && isDigitC y then some (acc ++ [x, y], rest)
    else if isDigitC x then some (acc ++ [x], y :: rest)
    else none
  | [x] => if isDigitC x then some (acc ++ [x], []) else none
  | [] => none

/-- Head of the second-revision slash day group: one or two digits, slash,
one or two digits. -/
def headDay2 (cs : List Char) : Option (List Char × List Char) :=
  match cs with
  | a :: b :: c :: rest =>
    if isDigitC a && isDigitC b && c = '/' then daySlashTail [a, b, c] rest
    else if isDigitC a && b = '/' then daySlashTail [a, b] (c :: rest)
    else none
  | _ => none

/-- Head of the first-revision slash day group: exactly two digits, slash,
two digits. -/
def headDay1 (cs : List Char) : Option (List Char × List Char) :=
  match cs with
  | a :: b :: c :: d :: e :: rest =>
    if isDigitC a && isDigitC b && c = '/' && isDigitC d && isDigitC e then
      some ([a, b, c, d, e], rest)
    else none
  | _ => none

/-- Head of the quarter extraction group: letter Q, a digit, one or more
whitespace characters, four digits; the capture keeps the matched text
verbatim, including the original letter case and whitespace. -/
def headQuarter (cs : List Char) : Option (List Char × List Char) :=
  match cs with
  | q :: d :: rest =>
    if lcEq q 'Q' && isDigitC d then
      let sp := rest.takeWhile isPySpace
      if sp.isEmpty then none else
      match rest.drop sp.length with
      | a :: b :: c :: e :: rest2 =>
        if isDigitC a && isDigitC b && isDigitC c && isDigitC e then
          some (q :: d :: (sp ++ [a, b, c, e]), rest2)
        else none
      | _ => none
    else none
  | _ => none

/-- Head of the year extraction group: four consecutive digits (no word
boundary). -/
def headYear (cs : List Char) : Option (List Char × List Char) :=
  match cs with
  | a :: b :: c :: d :: rest =>
    if isDigitC a && isDigitC b && isDigitC c && isDigitC d then
      some ([a, b, c, d], rest)
    else none
  | _ => none

/-- The extraction patterns of the two revisions of extract_numeric_data:
the second-revision minute and hour entries are the same regex text, so
they share a constructor. -/
inductive PatKind where
  | minute2 | day2 | quarter | year | minute1 | hour1 | day1
deriving DecidableEq

def headFor : PatKind → List Char → Option (List Char × List Char)
  | .minute2 => headMinute2
  | .day2 => headDay2
  | .quarter => headQuarter
  | .year => headYear
  | .minute1 => headMinute1
  | .hour1 => headHour1
  | .day1 => headDay1

def patNeedsSuffix : PatKind → Bool
  | .year => true
  | _ => false

/-- One whole-pattern match attempt at the current position: the head
group, then the shared lazy tail. -/
def matchPairAt (k : PatKind) (cs : List Char) : Option ((List Char × List Char) × List Char) :=
  match headFor k cs with
  | some (tok, rest) =>
    match tailScan (patNeedsSuffix k) rest with
    | some (num, rest2) => some ((tok, num), rest2)
    | none => none
  | none => none

/-- re.findall for an extraction pattern: leftmost matches, scanning
resumes after each complete match.  Every match consumes at least one
character and every failed attempt advances one character, so a fuel of
the text length is sufficient. -/
def findallPairsAux (k : PatKind) : Nat → List Char → List (String × String)
  | 0, _ => []
  | _ + 1, [] => []
  | fuel + 1, c :: rest =>
    match matchPairAt k (c :: rest) with
    | some ((tok, num), rest2) =>
      (String.mk tok, String.mk num) :: findallPairsAux k fuel rest2
    | none => findallPairsAux k fuel rest

def findallPairs (k : PatKind) (cs : List Char) : List (String × String) :=
  findallPairsAux k cs.length cs

/-- Python float conversion restricted to the strings the extractor can
feed it (digits and dots after comma stripping): an optional integer part,
an optional dot, an optional fractional part, with at least one digit.
Floats are modelled as exact rationals. -/
def splitOnDot : List Char → List (List Char)
  | [] => [[]]
  | c :: t =>
    let r := splitOnDot t
    if c = '.' then [] :: r
    else
      match r with
      | h :: t2 => (c :: h) :: t2
      | [] => [[c]]

def parseFloat (s : String) : Option Rat :=
  match splitOnDot s.data with
  | [ds] =>
    if !ds.isEmpty && ds.all isDigitC then some (mkRat (natValD ds) 1) else none
  | [as, bs] =>
    if (!as.isEmpty || !bs.isEmpty) && as.all isDigitC && bs.all isDigitC then
      some (mkRat (natValD as * 10 ^ bs.length + natValD bs) (10 ^ bs.length))
    else none
  | _ => none

/-- Python str.replace removing every comma. -/
def stripCommas (s : String) : String := String.mk (s.data.filter (fun c => c ≠ ','))

/-- Insertion into the insertion-ordered dict: a later duplicate key
overwrites the value in place, a new key is appended. -/
def dictInsert (l : List (String × Rat)) (k : String) (v : Rat) : List (String × Rat) :=
  match l with
  | [] => [(k, v)]
  | (k0, v0) :: t => if k0 = k then (k0, v) :: t else (k0, v0) :: dictInsert t k v

/-- One step of the extraction loop of extract_numeric_data: normalize the
time token, strip commas from the numeric token, convert to float, and
skip the pair when the conversion fails. -/
def buildStep (fmt : String) (acc : List (String × Rat)) (p : String × String) :
    List (String × Rat) :=
  match parseFloat (stripCommas p.2) with
  | some v => dictInsert acc (parse_time_value p.1 fmt) v
  | none => acc

/-- The extraction loop of extract_numeric_data over all matches, starting
from the empty dict. -/
def buildData (ms : List (String × String)) (fmt : String) : List (String × Rat) :=
  ms.foldl (buildStep fmt) []

/-- Code-point lexicographic order on strings, as Python string comparison
(used by sorted on the dict items; keys are unique, so values are never
compared). -/
def listLtC : List Char → List Char → Bool
  | [], [] => false
  | [], _ :: _ => true
  | _ :: _, [] => false
  | a :: s, b :: t => if a.val < b.val then true else if b.val < a.val then false else listLtC s t

def keyLt (a b : String) : Bool := listLtC a.data b.data

/-- Stable insertion sort by key, the effect of sorted on the dict items. -/
def insertSorted (p : String × Rat) : List (String × Rat) → List (String × Rat)
  | [] => [p]
  | q :: t => if keyLt q.1 p.1 then q :: insertSorted p t else p :: q :: t

def sortByKey (l : List (String × Rat)) : List (String × Rat) := l.foldr insertSorted []

/-- The axis-label lookup table shared by both revisions. -/
def labelsFor (interval : String) : String × String :=
  if interval = "minute" then ("Time (Minutes)", "Price ($)")
  else if interval = "hour" then ("Time (Hours)", "Price ($)")
  else if interval = "day" then ("Date", "Price ($)")
  else if interval = "quarter" then ("Quarter", "Value ($B)")
  else if interval = "year" then ("Year", "Value ($B)")
  else ("Time", "Value")

/-- The second-revision title lookup table. -/
def titleMapV2 (interval : String) : String :=
  if interval = "minute" then "Minutely Price Movement"
  else if interval = "hour" then "Hourly Price Movement"
  else if interval = "day" then "Daily Price Movement"
  else if interval = "quarter" then "Quarterly Price Movement"
  else if interval = "year" then "Yearly Price Movement"
  else "Price Movement"

/-- Python str.capitalize: first character upper-cased, the rest
lower-cased (ASCII model). -/
def pyCapitalize : List Char → List Char
  | [] => []
  | c :: t => c.toUpper :: t.map Char.toLower

/-- Python str.split on the underscore character. -/
def splitUnderscore : List Char → List (List Char)
  | [] => [[]]
  | c :: t =>
    let r := splitUnderscore t
    if c = '_' then [] :: r
    else
      match r with
      | h :: t2 => (c :: h) :: t2
      | [] => [[c]]

/-- The first-revision computed title: capitalize each underscore-separated
word, join, and append the adverbial suffix. -/
def titleV1 (interval : String) : String :=
  String.mk (((splitUnderscore interval.data).map pyCapitalize).foldr (· ++ ·) [])
    ++ "ly Price Movement"

/-- The pattern table of the second (effective) revision of
extract_numeric_data; the minute and hour entries hold the same regex. -/
def patternsV2 (interval : String) : Option PatKind :=
  if interval = "minute" then some .minute2
  else if interval = "hour" then some .minute2
  else if interval = "day" then some .day2
  else if interval = "quarter" then some .quarter
  else if interval = "year" then some .year
  else none

/-- The pattern table of the first (shadowed) revision. -/
def patternsV1 (interval : String) : Option PatKind :=
  if interval = "minute" then some .minute1
  else if interval = "hour" then some .hour1
  else if interval = "day" then some .day1
  else if interval = "quarter" then some .quarter
  else if interval = "year" then some .year
  else none

/-- extract_numeric_data from plotgraph.py: the second definition in the
module, which shadows the first and is the module binding. -/
def extract_numeric_data (text : String) : Option PlottableData :=
  let time_format := (detect_time_pattern text).1
  let interval := (detect_time_pattern text).2
  match patternsV2 interval with
  | none => none
  | some pat =>
    let ms := findallPairs pat text.data
    if ms.isEmpty then none
    else
      let data := buildData ms time_format
      if data.isEmpty then none
      else
        some
          { title := titleMapV2 interval
            x_label := (labelsFor interval).1
            y_label := (labelsFor interval).2
            data := sortByKey data
            interval := some interval }

/-- The first definition of extract_numeric_data in the module (lines 48
to 99), shadowed by the second: stricter two-digit patterns for minute,
hour and day, and a title computed by capitalizing the interval name. -/
def extract_numeric_data_v1 (text : String) : Option PlottableData :=
  let time_format := (detect_time_pattern text).1
  let interval := (detect_time_pattern text).2
  match patternsV1 interval with
  | none => none
  | some pat =>
    let ms := findallPairs pat text.data
    if ms.isEmpty then none
    else
      let data := buildData ms time_format
      if data.isEmpty then none
      else
        some
          { title := titleV1 interval
            x_label := (labelsFor interval).1
            y_label := (labelsFor interval).2
            data := sortByKey data
            interval := some interval }

/-- The structured chart mapping served to the browser charting library. -/
structure SerializedChart where
  title : String
  x_label : String
  y_label : String
  labels : List String
  values : List Rat
  interval : Option String
deriving DecidableEq

/-- Modelled from the spec: the Structured Serializer of section 4.5 is not
part of the files under src/ (only the web layer that forwards its output
is), so it is modelled from the spec text: given PlottableData, return a
plain mapping exposing title, x-label, y-label, the ordered list of keys as
labels, the parallel ordered list of numeric values and the granularity
tag; return the no-data signal when the input series is empty. -/
def serialize (pd : PlottableData) : Option SerializedChart :=
  if pd.data.isEmpty then none
  else
    some
      { title := pd.title
        x_label := pd.x_label
        y_label := pd.y_label
        labels := pd.data.map Prod.fst
        values := pd.data.map Prod.snd
        interval := pd.interval }


/-- The matches of the extraction pattern selected for the given text,
mirroring the pattern-selection step of extract_numeric_data. -/
def selectedMatches (text : String) : List (String × String) :=
  match patternsV2 (detect_time_pattern text).2 with
  | some pat => findallPairs pat text.data
  | none => []

/-- Whether the format-specific sub-pattern of the key normalizer matches
the token, mirroring branch by branch the success condition of
parse_time_value. -/
def canParse (fmt : String) (t : String) : Bool :=
  if fmt = "%Y-Q" then (findQdigit t.data).isSome && (find4Run t.data).isSome
  else if fmt = "%H:%M" then (matchHMMstart t.data).isSome
  else if fmt = "%m/%d" then (matchDayStart t.data).isSome
  else if fmt = "%Y" then (find4Run t.data).isSome
  else false

/-- A canonical five-character clock key: two digits, a colon, two digits
(the hour being any two-digit value). -/
def isHHMMkey (s : String) : Bool :=
  match s.data with
  | [a, b, c, d, e] => isDigitC a && isDigitC b && c = ':' && isDigitC d && isDigitC e
  | _ => false

/-- A clock key whose hour field lies in the 24-hour range. -/
def keyHourLe23 (s : String) : Bool :=
  match s.data with
  | [a, b, c, d, e] =>
    isDigitC a && isDigitC b && c = ':' && isDigitC d && isDigitC e &&
      Nat.ble (natValD [a, b]) 23
  | _ => false

/-- The shape of a time capture of the shared minute and hour extraction
pattern: one or two digits, a colon, two digits. -/
def tokHMMshape (s : String) : Bool :=
  match s.data with
  | [a, b, c, d] => isDigitC a && b = ':' && isDigitC c && isDigitC d
  | [a, b, c, d, e] => isDigitC a && isDigitC b && c = ':' && isDigitC d && isDigitC e
  | _ => false

/-- Python float truncation int(x): round toward zero. -/
def pyTrunc (q : Rat) : Int := if q < 0 then -(Int.floor (-q)) else Int.floor q

/-- Division made fallible, the ZeroDivisionError of the Python runtime. -/
def qdiv (a b : Rat) : Except String Rat :=
  if b = 0 then Except.error "ZeroDivisionError" else Except.ok (a / b)

/-- Python list read with negative-index wrap-around and IndexError. -/
def pyGet {α : Type} (l : List α) (i : Int) : Except String α :=
  let j := if i < 0 then i + (l.length : Int) else i
  if 0 ≤ j then
    match l.get? j.toNat with
    | some a => Except.ok a
    | none => Except.error "IndexError"
  else Except.error "IndexError"

/-- Python list element assignment with negative-index wrap-around and
IndexError. -/
def pySet {α : Type} (l : List α) (i : Int) (a : α) : Except String (List α) :=
  let j := if i < 0 then i + (l.length : Int) else i
  if 0 ≤ j ∧ j < (l.length : Int) then Except.ok (l.set j.toNat a)
  else Except.error "IndexError"

/-- Read one canvas cell. -/
def getCell (cv : List (List Char)) (i j : Int) : Except String Char := do
  let row ← pyGet cv i
  pyGet row j

/-- Write one canvas cell: read the row, assign within it, store it back
(the model of the in-place row mutation). -/
def setCell (cv : List (List Char)) (i j : Int) (ch : Char) :
    Except String (List (List Char)) := do
  let row ← pyGet cv i
  let row2 ← pySet row j ch
  pySet cv i row2

/-- Python max over a list, ValueError on an empty one; ties keep the
earlier element. -/
def pyMaxR : List Rat → Except String Rat
  | [] => Except.error "ValueError"
  | v :: t => Except.ok (t.foldl (fun a b => if a < b then b else a) v)

/-- Python min over a list, ValueError on an empty one. -/
def pyMinR : List Rat → Except String Rat
  | [] => Except.error "ValueError"
  | v :: t => Except.ok (t.foldl (fun a b => if b < a then b else a) v)

/-- The value-scale computation of plot_ascii: range over all values,
ten percent padding on each side, and the guarded scale (the conditional
expression evaluates its condition first, so no division happens in the
degenerate equal-range case). -/
def plotScale (values : List Rat) (height : Nat) : Except String (Rat × Rat × Rat) := do
  let max0 ← pyMaxR values
  let min0 ← pyMinR values
  let padding := (max0 - min0) * mkRat 1 10
  let max_val := max0 + padding
  let min_val := min0 - padding
  let scale ←
    if max_val ≠ min_val then qdiv ((height : Rat) - 1) (max_val - min_val) else pure 1
  pure (min_val, max_val, scale)

/-- Python range over integers. -/
def pyRange (a b : Int) : List Int :=
  (List.range (b - a).toNat).map (fun (k : Nat) => a + (k : Int))

/-- One step of the vertical-axis and horizontal-grid loop of plot_ascii. -/
def vertAxisStep (width : Nat) (cv : List (List Char)) (i : Nat) :
    Except String (List (List Char)) := do
  let cv2 ← setCell cv (i : Int) 0 '│'
  if i % 4 = 0 then
    (List.range width).foldlM
      (fun cvv (j : Nat) => do
        let ch ← getCell cvv (i : Int) (j : Int)
        if ch = ' ' then setCell cvv (i : Int) (j : Int) '·' else pure cvv)
      cv2
  else pure cv2

/-- One step of the bottom-axis and vertical-grid loop of plot_ascii. -/
def horizAxisStep (height : Nat) (cv : List (List Char)) (i : Nat) :
    Except String (List (List Char)) := do
  let cv2 ← setCell cv (-1) (i : Int) '─'
  if i % 10 = 0 then
    (List.range height).foldlM
      (fun cvv (j : Nat) => do
        let ch ← getCell cvv (j : Int) (i : Int)
        if ch = ' ' then setCell cvv (j : Int) (i : Int) '·' else pure cvv)
      cv2
  else pure cv2

/-- The grid-drawing phase of plot_ascii: axis glyphs, dot grid, corner. -/
def drawGrid (width height : Nat) (cv0 : List (List Char)) :
    Except String (List (List Char)) := do
  let cv1 ← (List.range height).foldlM (vertAxisStep width) cv0
  let cv2 ← (List.range width).foldlM (horizAxisStep height) cv1
  setCell cv2 (-1) 0 '└'

/-- The connecting-line loop between two consecutive points: for each
intermediate column, interpolate the row linearly (the division is by the
column distance) and draw the directional glyph. -/
def lineSegment (cv : List (List Char)) (px0 py0 x y : Int) :
    Except String (List (List Char)) :=
  (pyRange (px0 + 1) x).foldlM
    (fun cvv px => do
      let q ← qdiv (((y - py0 : Int) : Rat) * ((px - px0 : Int) : Rat)) ((x - px0 : Int) : Rat)
      let py := pyTrunc ((py0 : Rat) + q)
      let glyph := if y < py0 then '╱' else if y > py0 then '╲' else '─'
      setCell cvv py px glyph)
    cv

/-- One step of the point-plotting loop of plot_ascii: place the point
glyph, then draw the connecting line from the previous point when there is
one; the state carries the canvas and the previous coordinates. -/
def drawPoint (height : Nat) (min_val scale x_scale : Rat)
    (st : List (List Char) × Option (Int × Int)) (ip : Nat × (String × Rat)) :
    Except String (List (List Char) × Option (Int × Int)) := do
  let x := pyTrunc (1 + (ip.1 : Rat) * x_scale)
  let y := pyTrunc ((height : Rat) - 1 - (ip.2.2 - min_val) * scale)
  let cv2 ← setCell st.1 y x '●'
  match st.2 with
  | none => pure (cv2, some (x, y))
  | some pr => do
      let cv3 ← lineSegment cv2 pr.1 pr.2 x y
      pure (cv3, some (x, y))

def padLeftZeros (ds : List Char) (w : Nat) : List Char :=
  List.replicate (w - ds.length) '0' ++ ds

/-- Round to the nearest integer, ties to even, of a nonnegative value. -/
def roundHalfEvenNat (q : Rat) : Nat :=
  let n := (Int.floor q).toNat
  if 1 < 2 * (q - (Int.floor q : Rat)) then n + 1
  else if 2 * (q - (Int.floor q : Rat)) < 1 then n
  else if n % 2 = 0 then n else n + 1

/-- Fixed-precision decimal formatting, the f format spec of the Python
f-string; floats are modelled as exact rationals, so the rounding is the
tie-to-even decimal rounding of the exact value. -/
def formatFixed (q : Rat) (prec : Nat) : String :=
  let sign := if q < 0 then "-" else ""
  let m := roundHalfEvenNat (|q| * (10 : Rat) ^ prec)
  if prec = 0 then sign ++ String.mk (natChars m)
  else
    sign ++ String.mk (natChars (m / 10 ^ prec)) ++ "."
      ++ String.mk (padLeftZeros (natChars (m % 10 ^ prec)) prec)

/-- Python right-justification to a fixed width. -/
def rjust (s : String) (w : Nat) : String :=
  String.mk (List.replicate (w - s.data.length) ' ') ++ s

/-- The last-five-characters slice used for minute labels. -/
def lastFive (s : String) : String := String.mk (s.data.drop (s.data.length - 5))

def strContainsAux (needle : List Char) : List Char → Bool
  | [] => needle.isEmpty
  | c :: rest => needle.isPrefixOf (c :: rest) || strContainsAux needle rest

/-- Python substring membership test. -/
def strContains (s sub : String) : Bool := strContainsAux sub.data s.data

/-- One row of the labelled plot body: every fourth row carries a
fixed-precision y-axis tick label, the others only the axis glyph. -/
def rowLine (precision : Nat) (y_values : List Rat) (ip : Nat × List Char) :
    Except String String :=
  if ip.1 % 4 = 0 then do
    let yv ← pyGet y_values (ip.1 : Int)
    pure (rjust (formatFixed yv precision) 8 ++ " ┤" ++ String.mk (ip.2.drop 1))
  else
    pure (String.mk (List.replicate 8 ' ') ++ "│" ++ String.mk (ip.2.drop 1))

/-- plot_ascii from plotgraph.py, with the Python failure modes (zero
division, list index errors, max or min of an empty list) made explicit in
the Except monad: a returned ok value is the rendered text block. -/
def plot_ascii (data : PlottableData) (width height : Nat) : Except String String := do
  if data.data.isEmpty then
    return "No plottable data found."
  let mms ← plotScale (data.data.map Prod.snd) height
  let min_val := mms.1
  let max_val := mms.2.1
  let scale := mms.2.2
  let canvas0 : List (List Char) := List.replicate height (List.replicate width ' ')
  let canvas1 ← drawGrid width height canvas0
  let x_scale ←
    if data.data.length > 1 then qdiv ((width : Rat) - 2) ((data.data.length : Rat) - 1)
    else pure 1
  let sorted_items := sortByKey data.data
  let st ← ((List.range sorted_items.length).zip sorted_items).foldlM
    (drawPoint height min_val scale x_scale) (canvas1, none)
  let precision : Nat := if strContains data.y_label "Price" then 2 else 1
  let y_values0 ← (List.range height).mapM
    (fun (i : Nat) => do
      let q ← qdiv ((max_val - min_val) * (i : Rat)) ((height : Rat) - 1)
      pure (min_val + q))
  let y_values := y_values0.reverse
  let rows ← ((List.range st.1.length).zip st.1).mapM (rowLine precision y_values)
  let x_labels := sorted_items.map
    (fun p =>
      if data.interval = some "hour" then rjust p.1 5
      else if data.interval = some "minute" then lastFive p.1
      else rjust p.1 5)
  let label_positions := (List.range x_labels.length).map
    (fun (i : Nat) => pyTrunc (1 + (i : Rat) * x_scale))
  let x_axis := String.mk (List.replicate 8 ' ') ++ "└"
      ++ String.mk (List.replicate (width - 1) '─')
  let parts := (label_positions.zip x_labels).map
    (fun pl =>
      String.mk (List.replicate ((pl.1 - (x_axis.length : Int) + 1).toNat) ' ') ++ pl.2)
  let x_labels_line := String.mk (List.replicate 8 ' ') ++ " " ++ String.intercalate " " parts
  let result := ("\n" ++ data.title ++ "\n") :: rows
      ++ [x_axis, x_labels_line, "\n" ++ data.x_label ++ " vs " ++ data.y_label ++ "\n"]
  return String.intercalate "\n" result

/-- Canvas dimension bookkeeping: a list of rows of fixed widths. -/
def cvDims (h w : Nat) (cv : List (List Char)) : Prop :=
  cv.length = h ∧ ∀ r ∈ cv, r.length = w

theorem isEmpty_false_iff {α : Type} (l : List α) : l.isEmpty = false ↔ l ≠ [] := by
  cases l <;> simp

/-- The classifier returns one of exactly five format-granularity pairs. -/
theorem detect_cases (text : String) :
    detect_time_pattern text = ("%Y-Q", "quarter")
    ∨ detect_time_pattern text = ("%Y", "year")
    ∨ detect_time_pattern text = ("%m/%d", "day")
    ∨ detect_time_pattern text = ("%H:%M", "hour")
    ∨ detect_time_pattern text = ("%H:%M", "minute") := by
  simp only [detect_time_pattern]
  split_ifs <;> simp

/-- The pattern table always resolves the detected granularity. -/
theorem patternsV2_detect_isSome (text : String) :
    (patternsV2 (detect_time_pattern text).2).isSome = true := by
  rcases detect_cases text with h | h | h | h | h <;> rw [h] <;> decide

/-- Claim C2, counterexample: the text with three clock tokens of which
exactly one ends in colon-zero-zero reaches the clock-token rule and is
classified as hour, although one is not at least half of three; the code
threshold is the integer floor of half, not half. -/
theorem detect_hour_vote_counterexample :
    searchQuarter ("9:00 9:15 9:30" : String).data = false
    ∧ (searchYear4 ("9:00 9:15 9:30" : String).data
        && !searchHHMM2 ("9:00 9:15 9:30" : String).data) = false
    ∧ searchDay ("9:00 9:15 9:30" : String).data = false
    ∧ searchHMM ("9:00 9:15 9:30" : String).data = true
    ∧ detect_time_pattern "9:00 9:15 9:30" = ("%H:%M", "hour")
    ∧ 2 * ((findallHMM ("9:00 9:15 9:30" : String).data).filter endsColon00).length
        < (findallHMM ("9:00 9:15 9:30" : String).data).length := by
  decide

/-- Claim C2 as amended: on a text that reaches the clock-token rule, the
classification is hour exactly when the number of tokens ending in
colon-zero-zero is at least the integer floor of half the total number of
matched tokens, and at least one (the code threshold is the floored half,
so for an odd total a strict minority can already classify as hour). -/
theorem detect_hour_vote_threshold (text : String)
    (h1 : searchQuarter text.data = false)
    (h2 : (searchYear4 text.data && !searchHHMM2 text.data) = false)
    (h3 : searchDay text.data = false)
    (h4 : searchHMM text.data = true) :
    (detect_time_pattern text).2 = "hour" ↔
      ((findallHMM text.data).filter endsColon00).length
        ≥ max 1 ((findallHMM text.data).length / 2) := by
  simp only [detect_time_pattern, h1, h2, h3, h4]
  by_cases h5 : (findallHMM text.data).isEmpty
  · have h5n : findallHMM text.data = [] := by
      cases hl : findallHMM text.data with
      | nil => rfl
      | cons a t => rw [hl] at h5; simp at h5
    rw [h5n]
    simp
  · rw [Bool.not_eq_true] at h5
    simp only [h5]
    by_cases h6 : ((findallHMM text.data).filter endsColon00).length
        ≥ max 1 ((findallHMM text.data).length / 2)
    · simp only [if_pos h6]
      simp [h6]
    · simp only [if_neg h6]
      simp [h6]

/-- Witness for the amended claim C2 at a concrete text with one clock
token not on the hour, classified as minute. -/
theorem detect_hour_vote_threshold_witness :
    (detect_time_pattern "9:05 Close: 3").2 = "hour" ↔
      ((findallHMM ("9:05 Close: 3" : String).data).filter endsColon00).length
        ≥ max 1 ((findallHMM ("9:05 Close: 3" : String).data).length / 2) :=
  detect_hour_vote_threshold "9:05 Close: 3" (by decide) (by decide) (by decide) (by decide)

/-- Claim C3, counterexample: a text with a bare four-digit number and a
clock token with a one-digit hour and no quarter token is still classified
as year, because the year guard only excludes two-digit-hour clock
tokens. -/
theorem detect_year_single_digit_hour_counterexample :
    searchQuarter ("2023 9:05" : String).data = false
    ∧ searchYear4 ("2023 9:05" : String).data = true
    ∧ searchHMM ("2023 9:05" : String).data = true
    ∧ detect_time_pattern "2023 9:05" = ("%Y", "year") := by
  decide

/-- Claim C3 as amended: a clock token with a two-digit hour (together with
no quarter token) blocks the year classification; one-digit-hour clock
tokens do not. -/
theorem detect_year_blocked_by_hhmm (text : String)
    (hq : searchQuarter text.data = false)
    (hy : searchYear4 text.data = true)
    (hh : searchHHMM2 text.data = true) :
    (detect_time_pattern text).2 ≠ "year" := by
  simp only [detect_time_pattern, hq, hy, hh]
  split_ifs <;> first | decide | (exfalso; simp_all)

/-- Witness for the amended claim C3 at a concrete text with a two-digit
hour token. -/
theorem detect_year_blocked_by_hhmm_witness :
    (detect_time_pattern "2023 09:05").2 ≠ "year" :=
  detect_year_blocked_by_hhmm "2023 09:05" (by decide) (by decide) (by decide)

/-- Claim C4: the key normalizer is total (it is a Lean function, so it
terminates and raises nothing), and whenever the format-specific
sub-pattern does not match the token — including the day branch, whose
fall-through still reaches the final strip return — it returns the
stripped original token unchanged. -/
theorem parse_time_value_fail_soft (fmt t : String)
    (h : canParse fmt t = false) :
    parse_time_value t fmt = pyStrip t := by
  simp only [parse_time_value, canParse] at h ⊢
  split_ifs at h ⊢ with h1 h2 h3 h4
  · cases hq : findQdigit t.data with
    | none => cases find4Run t.data <;> rfl
    | some q =>
      cases hy : find4Run t.data with
      | none => rfl
      | some y => rw [hq, hy] at h; simp at h
  · cases hm : matchHMMstart t.data with
    | none => rfl
    | some p => rw [hm] at h; simp at h
  · cases hm : matchDayStart t.data with
    | none => rfl
    | some p => rw [hm] at h; simp at h
  · cases hy : find4Run t.data with
    | none => rfl
    | some y => rw [hy] at h; simp at h
  · rfl

/-- Witness for claim C4: a day-format token whose sub-pattern does not
match is returned stripped. -/
theorem parse_time_value_fail_soft_witness :
    parse_time_value "  hello  " "%m/%d" = pyStrip "  hello  " :=
  parse_time_value_fail_soft "%m/%d" "  hello  " (by decide)

/-- Claim C5: the spec example text is classified as an hourly series and
extraction yields the two-key series in ascending key order, with the later
duplicate nine-o-clock value overwriting the earlier one. -/
theorem extract_hour_example_eval :
    extract_numeric_data "09:00 Close: 150.25, 09:00 Close: 151.00, 10:00 Close: 152.75"
      = some { title := "Hourly Price Movement", x_label := "Time (Hours)",
               y_label := "Price ($)",
               data := [("09:00", 151), ("10:00", mkRat 611 4)],
               interval := some "hour" } := by
  decide

theorem dictInsert_ne_nil (l : List (String × Rat)) (k : String) (v : Rat) :
    dictInsert l k v ≠ [] := by
  cases l with
  | nil => simp [dictInsert]
  | cons p t => simp only [dictInsert]; split_ifs <;> simp

theorem buildStep_ne_nil (fmt : String) (acc : List (String × Rat)) (p : String × String)
    (h : acc ≠ []) : buildStep fmt acc p ≠ [] := by
  unfold buildStep
  cases parseFloat (stripCommas p.2) with
  | none => exact h
  | some v => exact dictInsert_ne_nil acc (parse_time_value p.1 fmt) v

theorem foldl_buildStep_ne_nil (fmt : String) (ms : List (String × String))
    (acc : List (String × Rat)) (h : acc ≠ []) :
    ms.foldl (buildStep fmt) acc ≠ [] := by
  induction ms generalizing acc with
  | nil => exact h
  | cons p t ih => exact ih (buildStep fmt acc p) (buildStep_ne_nil fmt acc p h)

/-- The extraction dict is empty exactly when every matched numeric token
fails the float conversion. -/
theorem buildData_eq_nil_iff (ms : List (String × String)) (fmt : String) :
    buildData ms fmt = [] ↔ ∀ p ∈ ms, parseFloat (stripCommas p.2) = none := by
  unfold buildData
  induction ms with
  | nil => simp
  | cons p t ih =>
    simp only [List.foldl_cons]
    cases hp : parseFloat (stripCommas p.2) with
    | none =>
      have h1 : buildStep fmt [] p = [] := by simp [buildStep, hp]
      rw [h1, List.forall_mem_cons]
      simp [ih, hp]
    | some v =>
      have h1 : buildStep fmt [] p = [(parse_time_value p.1 fmt, v)] := by
        simp [buildStep, hp, dictInsert]
      rw [h1]
      constructor
      · intro hcontra
        exact absurd hcontra (foldl_buildStep_ne_nil fmt t _ (by simp))
      · intro hall
        have := hall p (by simp)
        rw [hp] at this
        cases this

theorem insertSorted_ne_nil (p : String × Rat) (l : List (String × Rat)) :
    insertSorted p l ≠ [] := by
  cases l with
  | nil => simp [insertSorted]
  | cons q t => simp only [insertSorted]; split_ifs <;> simp

theorem sortByKey_ne_nil (l : List (String × Rat)) (h : l ≠ []) : sortByKey l ≠ [] := by
  cases l with
  | nil => exact absurd rfl h
  | cons p t => exact insertSorted_ne_nil p (t.foldr insertSorted [])

theorem mem_insertSorted (q p : String × Rat) (l : List (String × Rat))
    (h : q ∈ insertSorted p l) : q = p ∨ q ∈ l := by
  induction l with
  | nil => simpa [insertSorted] using h
  | cons r t ih =>
    simp only [insertSorted] at h
    split_ifs at h with hlt
    · rcases List.mem_cons.mp h with h1 | h1
      · exact Or.inr (List.mem_cons.mpr (Or.inl h1))
      · rcases ih h1 with h2 | h2
        · exact Or.inl h2
        · exact Or.inr (List.mem_cons.mpr (Or.inr h2))
    · rcases List.mem_cons.mp h with h1 | h1
      · exact Or.inl h1
      · exact Or.inr h1

theorem mem_sortByKey (q : String × Rat) (l : List (String × Rat))
    (h : q ∈ sortByKey l) : q ∈ l := by
  induction l with
  | nil => simp [sortByKey] at h
  | cons p t ih =>
    rcases mem_insertSorted q p (t.foldr insertSorted []) h with h1 | h1
    · simp [h1]
    · exact List.mem_cons.mpr (Or.inr (ih h1))

/-- Inversion of a successful extraction: the selected pattern exists, its
match list and the surviving dict are nonempty, and the record fields are
exactly the ones the function assembles. -/
theorem extract_some_inv (text : String) (pd : PlottableData)
    (h : extract_numeric_data text = some pd) :
    ∃ pat, patternsV2 (detect_time_pattern text).2 = some pat
      ∧ findallPairs pat text.data ≠ []
      ∧ buildData (findallPairs pat text.data) (detect_time_pattern text).1 ≠ []
      ∧ pd = { title := titleMapV2 (detect_time_pattern text).2,
               x_label := (labelsFor (detect_time_pattern text).2).1,
               y_label := (labelsFor (detect_time_pattern text).2).2,
               data := sortByKey
                 (buildData (findallPairs pat text.data) (detect_time_pattern text).1),
               interval := some (detect_time_pattern text).2 } := by
  simp only [extract_numeric_data] at h
  split at h
  · cases h
  · rename_i pat hpat
    split_ifs at h with h1 h2
    exact ⟨pat, hpat, fun hn => by simp [hn] at h1, fun hn => by simp [hn] at h2,
      (Option.some.inj h).symm⟩

/-- A successful extraction never carries an empty series. -/
theorem extract_some_data_ne_nil (text : String) (pd : PlottableData)
    (h : extract_numeric_data text = some pd) : pd.data ≠ [] := by
  obtain ⟨pat, _, _, hbd, hpd⟩ := extract_some_inv text pd h
  rw [hpd]
  exact sortByKey_ne_nil _ hbd

theorem isEmpty_true_iff {α : Type} (l : List α) : l.isEmpty = true ↔ l = [] := by
  cases l <;> simp

/-- Claim C1: extraction returns the no-data signal exactly when the
selected pattern has no match or every matched numeric token fails the
float conversion; an unparsable token is merely skipped, and a successful
extraction always carries a nonempty, fully assembled record (totality of
the Lean function is the never-raises part of the contract). -/
theorem extract_noData_characterization (text : String) :
    (extract_numeric_data text = none ↔
      selectedMatches text = []
        ∨ ∀ p ∈ selectedMatches text, parseFloat (stripCommas p.2) = none)
    ∧ (∀ pd, extract_numeric_data text = some pd → pd.data ≠ []) := by
  obtain ⟨pat, hpat⟩ := Option.isSome_iff_exists.mp (patternsV2_detect_isSome text)
  have hsel : selectedMatches text = findallPairs pat text.data := by
    simp only [selectedMatches, hpat]
  constructor
  · rw [hsel]
    simp only [extract_numeric_data, hpat]
    by_cases h1 : findallPairs pat text.data = []
    · simp [h1, buildData]
    · rw [if_neg (fun hc => h1 ((isEmpty_true_iff _).mp hc))]
      by_cases h2 : buildData (findallPairs pat text.data) (detect_time_pattern text).1 = []
      · rw [if_pos ((isEmpty_true_iff _).mpr h2)]
        simp only [h1, false_or]
        exact iff_of_true (by trivial) ((buildData_eq_nil_iff _ _).mp h2)
      · rw [if_neg (fun hc => h2 ((isEmpty_true_iff _).mp hc))]
        simp only [h1, false_or]
        constructor
        · intro hc; cases hc
        · intro hall; exact absurd ((buildData_eq_nil_iff _ _).mpr hall) h2
  · intro pd h
    exact extract_some_data_ne_nil text pd h

/-- Witness for claim C1: a successful quarterly extraction has a nonempty
series. -/
theorem extract_noData_characterization_witness :
    ({ title := "Quarterly Price Movement", x_label := "Quarter", y_label := "Value ($B)",
       data := [("2021-Q3", 7)], interval := some "quarter" } : PlottableData).data ≠ [] :=
  (extract_noData_characterization "Q3 2021 Close: 7").2
    { title := "Quarterly Price Movement", x_label := "Quarter", y_label := "Value ($B)",
      data := [("2021-Q3", 7)], interval := some "quarter" }
    (by decide)

/-- Claim C9: serializing a successfully extracted series produces labels
in exactly the series key order with values in a parallel list of the same
length, and serialize signals no data exactly on an empty series. -/
theorem serialize_extract_contract (text : String) :
    (∀ pd, extract_numeric_data text = some pd →
      serialize pd
          = some { title := pd.title, x_label := pd.x_label, y_label := pd.y_label,
                   labels := pd.data.map Prod.fst, values := pd.data.map Prod.snd,
                   interval := pd.interval }
        ∧ (pd.data.map Prod.fst).length = (pd.data.map Prod.snd).length)
    ∧ (∀ pd, serialize pd = none ↔ pd.data = []) := by
  constructor
  · intro pd h
    have hne := extract_some_data_ne_nil text pd h
    constructor
    · simp only [serialize]
      rw [if_neg (fun hc => hne ((isEmpty_true_iff _).mp hc))]
    · simp
  · intro pd
    simp only [serialize]
    by_cases hd : pd.data = []
    · simp [hd]
    · rw [if_neg (fun hc => hd ((isEmpty_true_iff _).mp hc))]
      simp [hd]

/-- Witness for claim C9 at a concrete quarterly text. -/
theorem serialize_extract_contract_witness :
    serialize { title := "Quarterly Price Movement", x_label := "Quarter",
                y_label := "Value ($B)", data := [("2024-Q1", mkRat 7 2)],
                interval := some "quarter" }
        = some { title := "Quarterly Price Movement", x_label := "Quarter",
                 y_label := "Value ($B)", labels := ["2024-Q1"], values := [mkRat 7 2],
                 interval := some "quarter" }
      ∧ ((["2024-Q1"] : List String)).length = (([mkRat 7 2] : List Rat)).length :=
  (serialize_extract_contract "Q1 2024 Value: 3.5").1
    { title := "Quarterly Price Movement", x_label := "Quarter", y_label := "Value ($B)",
      data := [("2024-Q1", mkRat 7 2)], interval := some "quarter" }
    (by decide)

/-- Claim C10, counterexample: on a one-digit-hour text the first revision
finds no match (its hour pattern demands a two-digit hour ending in
colon-zero-zero) while the second extracts a pair, so the two revisions are
not equal. -/
theorem extract_revisions_differ_counterexample :
    extract_numeric_data_v1 "9:00 Close: 150.25" = none
    ∧ extract_numeric_data "9:00 Close: 150.25"
        = some { title := "Hourly Price Movement", x_label := "Time (Hours)",
                 y_label := "Price ($)", data := [("09:00", mkRat 601 4)],
                 interval := some "hour" } := by
  decide

/-- Claim C10 as amended: the two revisions agree on every text classified
as quarter or year, where their patterns and titles coincide; they differ
on minute, hour and day texts. -/
theorem extract_revisions_agree_on_quarter_year (text : String)
    (h : (detect_time_pattern text).2 = "quarter" ∨ (detect_time_pattern text).2 = "year") :
    extract_numeric_data_v1 text = extract_numeric_data text := by
  rcases h with h | h
  · simp only [extract_numeric_data, extract_numeric_data_v1, h]
    rw [(by decide : patternsV1 "quarter" = some PatKind.quarter),
        (by decide : patternsV2 "quarter" = some PatKind.quarter),
        (by decide : titleV1 "quarter" = titleMapV2 "quarter")]
  · simp only [extract_numeric_data, extract_numeric_data_v1, h]
    rw [(by decide : patternsV1 "year" = some PatKind.year),
        (by decide : patternsV2 "year" = some PatKind.year),
        (by decide : titleV1 "year" = titleMapV2 "year")]

/-- Witness for the amended claim C10 at a concrete quarterly text. -/
theorem extract_revisions_agree_witness :
    extract_numeric_data_v1 "Q2 2024 Close: 12" = extract_numeric_data "Q2 2024 Close: 12" :=
  extract_revisions_agree_on_quarter_year "Q2 2024 Close: 12" (Or.inl (by decide))

theorem digit_toNat_bounds (c : Char) (h : isDigitC c = true) :
    48 ≤ c.toNat ∧ c.toNat ≤ 57 := by
  simp only [isDigitC, Char.isDigit, Bool.and_eq_true, decide_eq_true_eq] at h
  exact h

theorem natValD_one_le (a : Char) (h : isDigitC a = true) : natValD [a] ≤ 9 := by
  obtain ⟨h1, h2⟩ := digit_toNat_bounds a h
  simp only [natValD, List.foldl_cons, List.foldl_nil]
  omega

theorem natValD_two_le (a b : Char) (ha : isDigitC a = true) (hb : isDigitC b = true) :
    natValD [a, b] ≤ 99 := by
  obtain ⟨ha1, ha2⟩ := digit_toNat_bounds a ha
  obtain ⟨hb1, hb2⟩ := digit_toNat_bounds b hb
  simp only [natValD, List.foldl_cons, List.foldl_nil]
  omega

theorem natChars_lt10 (n : Nat) (h : n < 10) : natChars n = [Nat.digitChar n] := by
  simp [natChars, natCharsAux, h]

theorem natChars_two_digits (n : Nat) (h1 : 10 ≤ n) (h2 : n ≤ 99) :
    natChars n = [Nat.digitChar (n / 10), Nat.digitChar (n % 10)] := by
  obtain ⟨m, rfl⟩ : ∃ m, n = m + 1 := ⟨n - 1, by omega⟩
  simp only [natChars, natCharsAux, if_neg (by omega : ¬ m + 1 < 10),
    if_pos (by omega : (m + 1) / 10 < 10), List.singleton_append]

theorem digitChar_isDigit (n : Nat) (h : n < 10) : isDigitC (Nat.digitChar n) = true := by
  interval_cases n <;> decide

theorem pad2c_shape (n : Nat) (h : n ≤ 99) :
    ∃ a b, pad2c n = [a, b] ∧ isDigitC a = true ∧ isDigitC b = true := by
  by_cases h1 : n < 10
  · exact ⟨'0', Nat.digitChar n, by simp [pad2c, h1, natChars_lt10 n h1], by decide,
      digitChar_isDigit n h1⟩
  · exact ⟨Nat.digitChar (n / 10), Nat.digitChar (n % 10),
      by simp [pad2c, h1, natChars_two_digits n (by omega) h],
      digitChar_isDigit _ (by omega), digitChar_isDigit _ (by omega)⟩

/-- The time capture of the shared minute and hour pattern always has the
one-or-two-digit-hour colon two-digit shape. -/
theorem headMinute2_shape (cs tok rest : List Char)
    (h : headMinute2 cs = some (tok, rest)) : tokHMMshape (String.mk tok) = true := by
  rcases cs with _ | ⟨a, _ | ⟨b, _ | ⟨c, _ | ⟨d, rest2⟩⟩⟩⟩ <;>
    simp only [headMinute2] at h
  all_goals try exact Option.noConfusion h
  split_ifs at h with h1 h2
  · rcases rest2 with _ | ⟨e, rest3⟩
    · exact Option.noConfusion h
    · dsimp only at h
      split_ifs at h with h3
      · obtain ⟨rfl, rfl⟩ : tok = [a, b, c, d, e] ∧ rest = rest3 := by
          have h4 := Option.some.inj h
          exact ⟨(congrArg Prod.fst h4).symm, (congrArg Prod.snd h4).symm⟩
        simp only [Bool.and_eq_true] at h1
        simp [tokHMMshape, h1.1.1.1, h1.1.1.2, h1.1.2, h1.2, h3]
  · obtain ⟨rfl, rfl⟩ : tok = [a, b, c, d] ∧ rest = rest2 := by
      have h4 := Option.some.inj h
      exact ⟨(congrArg Prod.fst h4).symm, (congrArg Prod.snd h4).symm⟩
    simp only [Bool.and_eq_true] at h2
    simp [tokHMMshape, h2.1.1.1, h2.1.1.2, h2.1.2, h2.2]

/-- A whole-pattern match determines a successful head match on the same
time capture. -/
theorem matchPairAt_head (k : PatKind) (cs tok num rest2 : List Char)
    (h : matchPairAt k cs = some ((tok, num), rest2)) :
    ∃ rest1, headFor k cs = some (tok, rest1) := by
  unfold matchPairAt at h
  cases hh : headFor k cs with
  | none => rw [hh] at h; exact Option.noConfusion h
  | some pr =>
    obtain ⟨tok1, rest1⟩ := pr
    rw [hh] at h
    dsimp only at h
    cases ht : tailScan (patNeedsSuffix k) rest1 with
    | none => rw [ht] at h; exact Option.noConfusion h
    | some pr2 =>
      obtain ⟨num1, r2⟩ := pr2
      rw [ht] at h
      dsimp only at h
      have h4 := Option.some.inj h
      have htok : tok1 = tok := congrArg (fun q => q.1.1) h4
      subst htok
      exact ⟨rest1, rfl⟩

/-- Every pair produced by the shared minute and hour pattern carries a
clock-shaped time capture. -/
theorem findallPairs_minute2_shape (fuel : Nat) (cs : List Char) (p : String × String)
    (hp : p ∈ findallPairsAux PatKind.minute2 fuel cs) : tokHMMshape p.1 = true := by
  induction fuel generalizing cs with
  | zero => simp [findallPairsAux] at hp
  | succ f ih =>
    cases cs with
    | nil => simp [findallPairsAux] at hp
    | cons c rest =>
      simp only [findallPairsAux] at hp
      cases hm : matchPairAt PatKind.minute2 (c :: rest) with
      | none => rw [hm] at hp; exact ih _ hp
      | some trip =>
        obtain ⟨⟨tok, num⟩, rest2⟩ := trip
        rw [hm] at hp
        rcases List.mem_cons.mp hp with h1 | h1
        · obtain ⟨rest1, hh⟩ := matchPairAt_head PatKind.minute2 (c :: rest) tok num rest2 hm
          rw [h1]
          exact headMinute2_shape (c :: rest) tok rest1 hh
        · exact ih _ h1

/-- A clock-shaped token is accepted by the anchored clock sub-pattern of
the key normalizer, with both fields at most two digits wide. -/
theorem tok_matchHMMstart (t : String) (h : tokHMMshape t = true) :
    ∃ hh mm, matchHMMstart t.data = some (hh, mm) ∧ hh ≤ 99 ∧ mm ≤ 99 := by
  rcases ht : t.data with _ | ⟨a, _ | ⟨b, _ | ⟨c, _ | ⟨d, _ | ⟨e, tail⟩⟩⟩⟩⟩ <;>
    rw [tokHMMshape, ht] at h
  · cases h
  · cases h
  · cases h
  · cases h
  · -- four characters: one-digit hour
    simp only [Bool.and_eq_true, decide_eq_true_eq] at h
    obtain ⟨⟨⟨ha, hb⟩, hc⟩, hd⟩ := h
    subst hb
    refine ⟨natValD [a], natValD [c, d], ?_, ?_, natValD_two_le c d hc hd⟩
    · simp only [matchHMMstart]
      rw [if_neg (by simp [show isDigitC ':' = false from by decide]),
        if_pos (by simp [ha, hc, hd])]
    · exact le_trans (natValD_one_le a ha) (by omega)
  · -- five characters or more
    rcases tail with _ | ⟨f, tail2⟩
    · simp only [Bool.and_eq_true, decide_eq_true_eq] at h
      obtain ⟨⟨⟨⟨ha, hb⟩, hc⟩, hd⟩, he⟩ := h
      subst hc
      refine ⟨natValD [a, b], natValD [d, e], ?_, natValD_two_le a b ha hb,
        natValD_two_le d e hd he⟩
      simp only [matchHMMstart]
      rw [if_pos (by simp [ha, hb, hd])]
      rw [if_pos (by simp [he])]
    · cases h

/-- The normalized key of a clock-shaped token is a zero-padded
two-digit-colon-two-digit key. -/
theorem parse_HMM_key_shape (t : String) (h : tokHMMshape t = true) :
    isHHMMkey (parse_time_value t "%H:%M") = true := by
  obtain ⟨hh, mm, hmatch, hle1, hle2⟩ := tok_matchHMMstart t h
  unfold parse_time_value
  rw [if_neg (by decide), if_pos rfl, hmatch]
  show isHHMMkey (String.mk (pad2c hh ++ ':' :: pad2c mm)) = true
  obtain ⟨a, b, hab, ha, hb⟩ := pad2c_shape hh hle1
  obtain ⟨c, d, hcd, hc, hd⟩ := pad2c_shape mm hle2
  rw [hab, hcd]
  simp [isHHMMkey, ha, hb, hc, hd]

/-- Overwriting insertion preserves a property of all keys. -/
theorem dictInsert_keys (P : String → Prop) (l : List (String × Rat)) (k : String) (v : Rat)
    (hl : ∀ p ∈ l, P p.1) (hk : P k) : ∀ p ∈ dictInsert l k v, P p.1 := by
  induction l with
  | nil =>
    intro p hp
    simp only [dictInsert, List.mem_singleton] at hp
    rw [hp]
    exact hk
  | cons q t ih =>
    obtain ⟨k0, v0⟩ := q
    intro p hp
    simp only [dictInsert] at hp
    split_ifs at hp with he
    · rcases List.mem_cons.mp hp with h1 | h1
      · rw [h1]
        exact hl (k0, v0) (by simp)
      · exact hl p (List.mem_cons.mpr (Or.inr h1))
    · rcases List.mem_cons.mp hp with h1 | h1
      · rw [h1]
        exact hl (k0, v0) (by simp)
      · exact ih (fun r hr => hl r (List.mem_cons.mpr (Or.inr hr))) p h1

/-- The extraction loop only produces keys that are normalizer outputs of
matched time captures. -/
theorem foldl_buildStep_keys (fmt : String) (P : String → Prop) :
    ∀ (ms : List (String × String)) (acc : List (String × Rat)),
      (∀ m ∈ ms, P (parse_time_value m.1 fmt)) → (∀ p ∈ acc, P p.1) →
      ∀ p ∈ ms.foldl (buildStep fmt) acc, P p.1
  | [], acc, _, hacc => by simpa using hacc
  | m :: t, acc, hm, hacc => by
    intro p hp
    simp only [List.foldl_cons] at hp
    refine foldl_buildStep_keys fmt P t (buildStep fmt acc m)
      (fun x hx => hm x (List.mem_cons.mpr (Or.inr hx))) ?_ p hp
    intro q hq
    unfold buildStep at hq
    cases hpar : parseFloat (stripCommas m.2) with
    | none => rw [hpar] at hq; exact hacc q hq
    | some v =>
      rw [hpar] at hq
      exact dictInsert_keys P acc (parse_time_value m.1 fmt) v hacc
        (hm m (List.mem_cons.mpr (Or.inl rfl))) q hq

/-- Claim C7, counterexample: a text whose only clock token has hour 99 is
extracted as an hourly series whose key has an hour field outside the
24-hour range. -/
theorem extract_hour_key_range_counterexample :
    extract_numeric_data "99:00 Close: 5"
        = some { title := "Hourly Price Movement", x_label := "Time (Hours)",
                 y_label := "Price ($)", data := [("99:00", 5)], interval := some "hour" }
    ∧ keyHourLe23 "99:00" = false := by
  decide

/-- Claim C7 as amended: every key of a minute- or hour-granularity
extraction is a zero-padded five-character clock key, two digits, a colon
and two digits; the hour field is any two-digit value 00 to 99, it is not
validated against the 24-hour range. -/
theorem extract_minute_hour_key_shape (text : String) (pd : PlottableData)
    (h : extract_numeric_data text = some pd)
    (hi : pd.interval = some "minute" ∨ pd.interval = some "hour") :
    ∀ p ∈ pd.data, isHHMMkey p.1 = true := by
  obtain ⟨pat, hpat, hms, hbd, hpd⟩ := extract_some_inv text pd h
  have hint : (detect_time_pattern text).2 = "minute"
      ∨ (detect_time_pattern text).2 = "hour" := by
    rw [hpd] at hi
    simpa using hi
  have hkeys : ∀ m ∈ findallPairs PatKind.minute2 text.data,
      isHHMMkey (parse_time_value m.1 "%H:%M") = true := by
    intro m hm
    exact parse_HMM_key_shape m.1
      (findallPairs_minute2_shape text.data.length text.data m hm)
  rcases detect_cases text with h5 | h5 | h5 | h5 | h5
  · rw [h5] at hint; exact absurd hint (by decide)
  · rw [h5] at hint; exact absurd hint (by decide)
  · rw [h5] at hint; exact absurd hint (by decide)
  · -- hour
    rw [h5] at hpat hpd
    have hpat2 : pat = PatKind.minute2 := by
      rw [(by decide : patternsV2 ("%H:%M", "hour").2 = some PatKind.minute2)] at hpat
      exact (Option.some.inj hpat).symm
    subst hpat2
    intro p hp
    rw [hpd] at hp
    have hp2 := mem_sortByKey p _ hp
    exact foldl_buildStep_keys ("%H:%M", "hour").1 (fun k => isHHMMkey k = true)
      (findallPairs PatKind.minute2 text.data) [] hkeys (by simp) p hp2
  · -- minute
    rw [h5] at hpat hpd
    have hpat2 : pat = PatKind.minute2 := by
      rw [(by decide : patternsV2 ("%H:%M", "minute").2 = some PatKind.minute2)] at hpat
      exact (Option.some.inj hpat).symm
    subst hpat2
    intro p hp
    rw [hpd] at hp
    have hp2 := mem_sortByKey p _ hp
    exact foldl_buildStep_keys ("%H:%M", "minute").1 (fun k => isHHMMkey k = true)
      (findallPairs PatKind.minute2 text.data) [] hkeys (by simp) p hp2

theorem except_bind_ok {α β : Type} (a : α) (f : α → Except String β) :
    (Except.ok a >>= f : Except String β) = f a := rfl

/-- An Except-valued fold returns ok and preserves an invariant when every
step does. -/
theorem foldlM_ok_of_inv {α β : Type} (P : β → Prop) (f : β → α → Except String β)
    (l : List α) (b0 : β) (h0 : P b0)
    (hstep : ∀ b a, P b → a ∈ l → ∃ b2, f b a = Except.ok b2 ∧ P b2) :
    ∃ b2, l.foldlM f b0 = Except.ok b2 ∧ P b2 := by
  induction l generalizing b0 with
  | nil => exact ⟨b0, rfl, h0⟩
  | cons a t ih =>
    obtain ⟨b1, hb1, hP1⟩ := hstep b0 a h0 (List.mem_cons.mpr (Or.inl rfl))
    rw [List.foldlM_cons, hb1, except_bind_ok]
    exact ih b1 hP1 (fun b x hP hx => hstep b x hP (List.mem_cons.mpr (Or.inr hx)))

/-- An Except-valued map returns ok, with the same length, when every
element does. -/
theorem mapM_ok_of_all {α β : Type} (f : α → Except String β) (l : List α)
    (h : ∀ a ∈ l, ∃ b, f a = Except.ok b) :
    ∃ bs, l.mapM f = Except.ok bs ∧ bs.length = l.length := by
  induction l with
  | nil => exact ⟨[], rfl, rfl⟩
  | cons a t ih =>
    obtain ⟨b, hb⟩ := h a (List.mem_cons.mpr (Or.inl rfl))
    obtain ⟨bs, hbs, hlen⟩ := ih (fun x hx => h x (List.mem_cons.mpr (Or.inr hx)))
    refine ⟨b :: bs, ?_, by simp [hlen]⟩
    rw [List.mapM_cons, hb, except_bind_ok, hbs, except_bind_ok]
    rfl

theorem qdiv_ok (a b : Rat) (h : b ≠ 0) : qdiv a b = Except.ok (a / b) := by
  unfold qdiv
  rw [if_neg h]

theorem pyGet_ok_nonneg {α : Type} (l : List α) (i : Int) (h0 : 0 ≤ i)
    (h1 : i < (l.length : Int)) : ∃ a, pyGet l i = Except.ok a ∧ a ∈ l := by
  unfold pyGet
  dsimp only
  rw [if_neg (by omega : ¬ i < 0), if_pos h0]
  cases hg : l.get? i.toNat with
  | none =>
    rw [List.get?_eq_none] at hg
    omega
  | some a => exact ⟨a, rfl, List.get?_mem hg⟩

theorem pyGet_neg_one {α : Type} (l : List α) (h1 : 1 ≤ l.length) :
    ∃ a, pyGet l (-1) = Except.ok a ∧ a ∈ l := by
  unfold pyGet
  dsimp only
  rw [if_pos (by norm_num : (-1 : Int) < 0), if_pos (by omega)]
  cases hg : l.get? (-1 + (l.length : Int)).toNat with
  | none =>
    rw [List.get?_eq_none] at hg
    omega
  | some a => exact ⟨a, rfl, List.get?_mem hg⟩

theorem pySet_ok_nonneg {α : Type} (l : List α) (i : Int) (a : α) (h0 : 0 ≤ i)
    (h1 : i < (l.length : Int)) : pySet l i a = Except.ok (l.set i.toNat a) := by
  unfold pySet
  dsimp only
  rw [if_neg (by omega : ¬ i < 0), if_pos ⟨h0, h1⟩]

theorem pySet_neg_one {α : Type} (l : List α) (a : α) (h1 : 1 ≤ l.length) :
    pySet l (-1) a = Except.ok (l.set (-1 + (l.length : Int)).toNat a) := by
  unfold pySet
  dsimp only
  rw [if_pos (by norm_num : (-1 : Int) < 0), if_pos (by omega)]

theorem setCell_ok (h w : Nat) (cv : List (List Char)) (i j : Int) (ch : Char)
    (hd : cvDims h w cv) (hi0 : 0 ≤ i) (hi1 : i < (h : Int)) (hj0 : 0 ≤ j)
    (hj1 : j < (w : Int)) :
    ∃ cv2, setCell cv i j ch = Except.ok cv2 ∧ cvDims h w cv2 := by
  obtain ⟨hlen, hrow⟩ := hd
  obtain ⟨row, hget, hmem⟩ := pyGet_ok_nonneg cv i hi0 (by rw [hlen]; exact hi1)
  have hrl : row.length = w := hrow row hmem
  unfold setCell
  rw [hget, except_bind_ok,
    pySet_ok_nonneg row j ch hj0 (by rw [hrl]; exact hj1), except_bind_ok,
    pySet_ok_nonneg cv i _ hi0 (by rw [hlen]; exact hi1)]
  refine ⟨_, rfl, ?_, ?_⟩
  · rw [List.length_set]; exact hlen
  · intro r hr
    rcases List.mem_or_eq_of_mem_set hr with hr1 | hr1
    · exact hrow r hr1
    · rw [hr1, List.length_set]; exact hrl

theorem setCell_neg_one_ok (h w : Nat) (cv : List (List Char)) (j : Int) (ch : Char)
    (hd : cvDims h w cv) (hh : 1 ≤ h) (hj0 : 0 ≤ j) (hj1 : j < (w : Int)) :
    ∃ cv2, setCell cv (-1) j ch = Except.ok cv2 ∧ cvDims h w cv2 := by
  obtain ⟨hlen, hrow⟩ := hd
  obtain ⟨row, hget, hmem⟩ := pyGet_neg_one cv (by omega)
  have hrl : row.length = w := hrow row hmem
  unfold setCell
  rw [hget, except_bind_ok,
    pySet_ok_nonneg row j ch hj0 (by rw [hrl]; exact hj1), except_bind_ok,
    pySet_neg_one cv _ (by omega)]
  refine ⟨_, rfl, ?_, ?_⟩
  · rw [List.length_set]; exact hlen
  · intro r hr
    rcases List.mem_or_eq_of_mem_set hr with hr1 | hr1
    · exact hrow r hr1
    · rw [hr1, List.length_set]; exact hrl

theorem getCell_ok (h w : Nat) (cv : List (List Char)) (i j : Int)
    (hd : cvDims h w cv) (hi0 : 0 ≤ i) (hi1 : i < (h : Int)) (hj0 : 0 ≤ j)
    (hj1 : j < (w : Int)) : ∃ ch, getCell cv i j = Except.ok ch := by
  obtain ⟨hlen, hrow⟩ := hd
  obtain ⟨row, hget, hmem⟩ := pyGet_ok_nonneg cv i hi0 (by rw [hlen]; exact hi1)
  obtain ⟨ch, hch, _⟩ := pyGet_ok_nonneg row j hj0 (by rw [hrow row hmem]; exact hj1)
  exact ⟨ch, by unfold getCell; rw [hget, except_bind_ok, hch]⟩

theorem vertAxisStep_ok (w h : Nat) (cv : List (List Char)) (i : Nat)
    (hd : cvDims h w cv) (hi : i < h) (hw : 1 ≤ w) :
    ∃ cv2, vertAxisStep w cv i = Except.ok cv2 ∧ cvDims h w cv2 := by
  obtain ⟨cv2, hset, hd2⟩ := setCell_ok h w cv (i : Int) 0 '│' hd (by omega)
    (by exact_mod_cast hi) (by omega) (by exact_mod_cast hw)
  unfold vertAxisStep
  rw [hset, except_bind_ok]
  by_cases hmod : i % 4 = 0
  · rw [if_pos hmod]
    refine foldlM_ok_of_inv (cvDims h w) _ (List.range w) cv2 hd2 ?_
    intro b (j : Nat) hP hj
    have hj2 : j < w := List.mem_range.mp hj
    obtain ⟨ch, hch⟩ := getCell_ok h w b (i : Int) (j : Int) hP (by omega)
      (by exact_mod_cast hi) (by omega) (by exact_mod_cast hj2)
    rw [hch, except_bind_ok]
    by_cases hsp : ch = ' '
    · rw [if_pos hsp]
      exact setCell_ok h w b (i : Int) (j : Int) '·' hP (by omega) (by exact_mod_cast hi)
        (by omega) (by exact_mod_cast hj2)
    · rw [if_neg hsp]
      exact ⟨b, rfl, hP⟩
  · rw [if_neg hmod]
    exact ⟨cv2, rfl, hd2⟩

theorem horizAxisStep_ok (w h : Nat) (cv : List (List Char)) (i : Nat)
    (hd : cvDims h w cv) (hi : i < w) (hh : 1 ≤ h) :
    ∃ cv2, horizAxisStep h cv i = Except.ok cv2 ∧ cvDims h w cv2 := by
  obtain ⟨cv2, hset, hd2⟩ := setCell_neg_one_ok h w cv (i : Int) '─' hd hh (by omega)
    (by exact_mod_cast hi)
  unfold horizAxisStep
  rw [hset, except_bind_ok]
  by_cases hmod : i % 10 = 0
  · rw [if_pos hmod]
    refine foldlM_ok_of_inv (cvDims h w) _ (List.range h) cv2 hd2 ?_
    intro b (j : Nat) hP hj
    have hj2 : j < h := List.mem_range.mp hj
    obtain ⟨ch, hch⟩ := getCell_ok h w b (j : Int) (i : Int) hP (by omega)
      (by exact_mod_cast hj2) (by omega) (by exact_mod_cast hi)
    rw [hch, except_bind_ok]
    by_cases hsp : ch = ' '
    · rw [if_pos hsp]
      exact setCell_ok h w b (j : Int) (i : Int) '·' hP (by omega) (by exact_mod_cast hj2)
        (by omega) (by exact_mod_cast hi)
    · rw [if_neg hsp]
      exact ⟨b, rfl, hP⟩
  · rw [if_neg hmod]
    exact ⟨cv2, rfl, hd2⟩

theorem drawGrid_ok (w h : Nat) (cv0 : List (List Char)) (hd : cvDims h w cv0)
    (hh : 1 ≤ h) (hw : 1 ≤ w) :
    ∃ cv, drawGrid w h cv0 = Except.ok cv ∧ cvDims h w cv := by
  obtain ⟨cv1, h1, hd1⟩ := foldlM_ok_of_inv (cvDims h w) (vertAxisStep w) (List.range h) cv0 hd
    (fun b i hP hi => vertAxisStep_ok w h b i hP (List.mem_range.mp hi) hw)
  obtain ⟨cv2, h2, hd2⟩ := foldlM_ok_of_inv (cvDims h w) (horizAxisStep h) (List.range w) cv1 hd1
    (fun b i hP hi => horizAxisStep_ok w h b i hP (List.mem_range.mp hi) hh)
  obtain ⟨cv3, h3, hd3⟩ := setCell_neg_one_ok h w cv2 0 '└' hd2 hh (by omega)
    (by exact_mod_cast hw)
  exact ⟨cv3, by unfold drawGrid; rw [h1, except_bind_ok, h2, except_bind_ok, h3], hd3⟩

theorem pyTrunc_intCast (n : Int) : pyTrunc ((n : Rat)) = n := by
  unfold pyTrunc
  split_ifs with h
  · rw [← Int.cast_neg, Int.floor_intCast]
    omega
  · rw [Int.floor_intCast]

theorem pyTrunc_nonneg (q : Rat) (h : 0 ≤ q) : 0 ≤ pyTrunc q := by
  unfold pyTrunc
  rw [if_neg (by linarith)]
  exact Int.floor_nonneg.mpr h

theorem pyTrunc_lt (q : Rat) (m : Int) (h0 : 0 ≤ q) (h : q < (m : Rat)) : pyTrunc q < m := by
  unfold pyTrunc
  rw [if_neg (by linarith)]
  exact Int.floor_lt.mpr h

theorem pyRange_mem (a b px : Int) (h : px ∈ pyRange a b) : a ≤ px ∧ px < b := by
  unfold pyRange at h
  obtain ⟨k, hk, rfl⟩ := List.mem_map.mp h
  have hk2 := List.mem_range.mp hk
  omega

theorem foldl_max_const (c : Rat) (t : List Rat) (h : ∀ v ∈ t, v = c) :
    t.foldl (fun a b => if a < b then b else a) c = c := by
  induction t with
  | nil => rfl
  | cons v t2 ih =>
    rw [List.foldl_cons, h v (List.mem_cons.mpr (Or.inl rfl)), if_neg (lt_irrefl c)]
    exact ih (fun x hx => h x (List.mem_cons.mpr (Or.inr hx)))

theorem foldl_min_const (c : Rat) (t : List Rat) (h : ∀ v ∈ t, v = c) :
    t.foldl (fun a b => if b < a then b else a) c = c := by
  induction t with
  | nil => rfl
  | cons v t2 ih =>
    rw [List.foldl_cons, h v (List.mem_cons.mpr (Or.inl rfl)), if_neg (lt_irrefl c)]
    exact ih (fun x hx => h x (List.mem_cons.mpr (Or.inr hx)))

/-- On an all-equal value list the padded range collapses and the guard
chooses the unit scale without dividing. -/
theorem plotScale_const (values : List Rat) (c : Rat) (hne : values ≠ [])
    (hc : ∀ v ∈ values, v = c) (height : Nat) :
    plotScale values height = Except.ok (c, c, 1) := by
  obtain ⟨v, t, rfl⟩ : ∃ v t, values = v :: t := by
    cases values with
    | nil => exact absurd rfl hne
    | cons v t => exact ⟨v, t, rfl⟩
  have hv : v = c := hc v (List.mem_cons.mpr (Or.inl rfl))
  subst hv
  have ht : ∀ x ∈ t, x = v := fun x hx => hc x (List.mem_cons.mpr (Or.inr hx))
  have hmax : pyMaxR (v :: t) = Except.ok v := by
    show Except.ok (t.foldl (fun a b => if a < b then b else a) v) = Except.ok v
    rw [foldl_max_const v t ht]
  have hmin : pyMinR (v :: t) = Except.ok v := by
    show Except.ok (t.foldl (fun a b => if b < a then b else a) v) = Except.ok v
    rw [foldl_min_const v t ht]
  unfold plotScale
  rw [hmax, except_bind_ok, hmin, except_bind_ok]
  dsimp only
  rw [if_neg (not_ne_iff.mpr (by ring))]
  show Except.ok (v - (v - v) * mkRat 1 10, v + (v - v) * mkRat 1 10, 1) = Except.ok (v, v, 1)
  simp only [Except.ok.injEq, Prod.mk.injEq]
  exact ⟨by ring, by ring, trivial⟩

/-- The connecting-line loop between two points on the same row never
divides by zero (a nonempty column range forces a column distance of at
least two) and stays on the canvas. -/
theorem lineSegment_flat_ok (h w : Nat) (cv : List (List Char)) (px0 y x : Int)
    (hd : cvDims h w cv) (hy0 : 0 ≤ y) (hy1 : y < (h : Int)) (hx0 : 0 ≤ px0)
    (hxw : x ≤ (w : Int)) :
    ∃ cv2, lineSegment cv px0 y x y = Except.ok cv2 ∧ cvDims h w cv2 := by
  unfold lineSegment
  refine foldlM_ok_of_inv (cvDims h w) _ (pyRange (px0 + 1) x) cv hd ?_
  intro b px hP hpx
  obtain ⟨hpx1, hpx2⟩ := pyRange_mem _ _ _ hpx
  have hden : ((x - px0 : Int) : Rat) ≠ 0 := by
    rw [Int.cast_ne_zero]
    omega
  rw [qdiv_ok _ _ hden, except_bind_ok]
  have hq : (((y - y : Int) : Rat) * ((px - px0 : Int) : Rat)) / ((x - px0 : Int) : Rat)
      = 0 := by simp
  rw [hq]
  have hpy : pyTrunc ((y : Rat) + 0) = y := by rw [add_zero, pyTrunc_intCast]
  rw [hpy, if_neg (lt_irrefl y), if_neg (lt_irrefl y)]
  exact setCell_ok h w b y px '─' hP hy0 hy1 (by omega) (by omega)

theorem insertSorted_length (p : String × Rat) (l : List (String × Rat)) :
    (insertSorted p l).length = l.length + 1 := by
  induction l with
  | nil => rfl
  | cons q t ih =>
    simp only [insertSorted]
    split_ifs
    · simp [ih]
    · simp

theorem sortByKey_length (l : List (String × Rat)) : (sortByKey l).length = l.length := by
  induction l with
  | nil => rfl
  | cons p t ih =>
    show (insertSorted p (t.foldr insertSorted [])).length = t.length + 1
    rw [insertSorted_length]
    exact congrArg (· + 1) ih

/-- The point-plotting loop on an all-equal series: every point lands on
the bottom data row, the connecting segments are flat, and no step
fails. -/
theorem drawPoints_ok (items : List (String × Rat)) (c xs : Rat) (cv : List (List Char))
    (hd : cvDims 20 80 cv) (hvals : ∀ p ∈ items, p.2 = c) (hxs : 0 ≤ xs)
    (hbound : ∀ i : Nat, i < items.length → (i : Rat) * xs ≤ 78) :
    ∃ st, ((List.range items.length).zip items).foldlM (drawPoint 20 c 1 xs) (cv, none)
      = Except.ok st ∧ cvDims 20 80 st.1 := by
  have hstep : ∀ (st : List (List Char) × Option (Int × Int)) (ip : Nat × (String × Rat)),
      (cvDims 20 80 st.1 ∧ (st.2 = none ∨ ∃ x0, st.2 = some (x0, 19) ∧ 0 ≤ x0 ∧ x0 ≤ 79)) →
      ip ∈ (List.range items.length).zip items →
      ∃ st2, drawPoint 20 c 1 xs st ip = Except.ok st2 ∧
        (cvDims 20 80 st2.1 ∧
          (st2.2 = none ∨ ∃ x0, st2.2 = some (x0, 19) ∧ 0 ≤ x0 ∧ x0 ≤ 79)) := by
    intro st ip hP hip
    obtain ⟨i, p⟩ := ip
    obtain ⟨hd1, hprev⟩ := hP
    have hzip := List.of_mem_zip hip
    have hi : i < items.length := List.mem_range.mp hzip.1
    have hpc : p.2 = c := hvals p hzip.2
    have hxval : (0 : Rat) ≤ 1 + (i : Rat) * xs ∧ 1 + (i : Rat) * xs < ((80 : Int) : Rat) := by
      have h78 := hbound i hi
      have hnn : (0 : Rat) ≤ (i : Rat) * xs := mul_nonneg (by positivity) hxs
      constructor
      · linarith
      · push_cast
        linarith
    have hx0 : 0 ≤ pyTrunc (1 + (i : Rat) * xs) := pyTrunc_nonneg _ hxval.1
    have hx1 : pyTrunc (1 + (i : Rat) * xs) < 80 := pyTrunc_lt _ 80 hxval.1 hxval.2
    unfold drawPoint
    dsimp only
    have hyv : ((20 : Nat) : Rat) - 1 - (p.2 - c) * 1 = ((19 : Int) : Rat) := by
      rw [hpc]
      push_cast
      ring
    rw [hyv, pyTrunc_intCast]
    obtain ⟨cv2, hset, hd2⟩ := setCell_ok 20 80 st.1 19 (pyTrunc (1 + (i : Rat) * xs)) '●'
      hd1 (by omega) (by norm_num) hx0 (by exact_mod_cast hx1)
    rw [hset, except_bind_ok]
    rcases hprev with hnone | ⟨x0, hsome, hx00, hx01⟩
    · rw [hnone]
      exact ⟨_, rfl, hd2, Or.inr ⟨_, rfl, hx0, by omega⟩⟩
    · rw [hsome]
      obtain ⟨cv3, hline, hd3⟩ := lineSegment_flat_ok 20 80 cv2 x0 19
        (pyTrunc (1 + (i : Rat) * xs)) hd2 (by omega) (by norm_num) hx00
        (by exact_mod_cast (by omega : pyTrunc (1 + (i : Rat) * xs) ≤ 80))
      dsimp only
      rw [hline, except_bind_ok]
      exact ⟨_, rfl, hd3, Or.inr ⟨_, rfl, hx0, by omega⟩⟩
  obtain ⟨st, hst, hP⟩ := foldlM_ok_of_inv _ (drawPoint 20 c 1 xs)
    ((List.range items.length).zip items) (cv, none) ⟨hd, Or.inl rfl⟩ hstep
  exact ⟨st, hst, hP.1⟩

theorem except_pure_bind {α β : Type} (a : α) (f : α → Except String β) :
    (pure a >>= f : Except String β) = f a := rfl

/-- Claim C8: on a series with at least one point whose values are all
equal, the renderer never divides by zero — the scale guard returns the
unit scale for the degenerate range, the horizontal spacing guard covers a
single point, and a connecting segment only divides by a column distance
of at least two — and every list access stays in bounds, so plot_ascii at
the default eighty-by-twenty dimensions returns a rendered string rather
than an error. -/
theorem plot_ascii_const_ok (pd : PlottableData) (c : Rat)
    (hne : pd.data ≠ []) (hc : ∀ p ∈ pd.data, p.2 = c) :
    ∃ s, plot_ascii pd 80 20 = Except.ok s := by
  have hie : pd.data.isEmpty = false := (isEmpty_false_iff _).mpr hne
  have hvne : pd.data.map Prod.snd ≠ [] := by
    intro hcontra
    exact hne (by simpa using hcontra)
  have hvc : ∀ v ∈ pd.data.map Prod.snd, v = c := by
    intro v hv
    obtain ⟨p, hp, rfl⟩ := List.mem_map.mp hv
    exact hc p hp
  have hscale := plotScale_const (pd.data.map Prod.snd) c hvne hvc 20
  have hd0 : cvDims 20 80 (List.replicate 20 (List.replicate 80 ' ')) := by
    refine ⟨by simp, ?_⟩
    intro r hr
    rw [List.eq_of_mem_replicate hr]
    simp
  obtain ⟨cv1, hgrid, hd1⟩ := drawGrid_ok 80 20 _ hd0 (by norm_num) (by norm_num)
  have hsvals : ∀ p ∈ sortByKey pd.data, p.2 = c := fun p hp => hc p (mem_sortByKey p _ hp)
  have hslen : (sortByKey pd.data).length = pd.data.length := sortByKey_length _
  have h19 : ((20 : Nat) : Rat) - 1 ≠ 0 := by norm_num
  unfold plot_ascii
  rw [if_neg (by simp [hie])]
  rw [hscale, except_bind_ok]
  dsimp only
  rw [hgrid, except_bind_ok]
  by_cases hn1 : pd.data.length > 1
  · rw [if_pos hn1]
    have hlt : (1 : Rat) < (pd.data.length : Rat) := by exact_mod_cast hn1
    have hden : ((pd.data.length : Rat) - 1) ≠ 0 := ne_of_gt (by linarith)
    rw [qdiv_ok _ _ hden, except_bind_ok]
    have hxs : (0 : Rat) ≤ (((80 : Nat) : Rat) - 2) / ((pd.data.length : Rat) - 1) :=
      div_nonneg (by norm_num) (by linarith)
    have hbound : ∀ i : Nat, i < (sortByKey pd.data).length →
        (i : Rat) * ((((80 : Nat) : Rat) - 2) / ((pd.data.length : Rat) - 1)) ≤ 78 := by
      intro i hi
      rw [hslen] at hi
      have hi2 : (i : Rat) ≤ (pd.data.length : Rat) - 1 := by
        have hi3 : ((i : Nat) : Rat) + 1 ≤ (pd.data.length : Rat) := by exact_mod_cast hi
        linarith
      have hstep := mul_le_mul_of_nonneg_right hi2 hxs
      have hcancel : ((pd.data.length : Rat) - 1)
          * ((((80 : Nat) : Rat) - 2) / ((pd.data.length : Rat) - 1))
          = ((80 : Nat) : Rat) - 2 := by
        rw [mul_comm]
        exact div_mul_cancel₀ _ hden
      rw [hcancel] at hstep
      have h78 : ((80 : Nat) : Rat) - 2 = 78 := by norm_num
      linarith
    obtain ⟨st, hpts, hstd⟩ := drawPoints_ok (sortByKey pd.data) c
      ((((80 : Nat) : Rat) - 2) / ((pd.data.length : Rat) - 1)) cv1 hd1 hsvals hxs hbound
    rw [hpts, except_bind_ok]
    obtain ⟨ys, hys, hyslen⟩ := mapM_ok_of_all
      (fun (i : Nat) => do
        let q ← qdiv ((c - c) * (i : Rat)) (((20 : Nat) : Rat) - 1)
        pure (c + q))
      (List.range 20) (by
        intro i _
        refine ⟨c + ((c - c) * (i : Rat)) / (((20 : Nat) : Rat) - 1), ?_⟩
        show (do
            let q ← qdiv ((c - c) * (i : Rat)) (((20 : Nat) : Rat) - 1)
            pure (c + q) : Except String Rat)
          = Except.ok (c + ((c - c) * (i : Rat)) / (((20 : Nat) : Rat) - 1))
        rw [qdiv_ok _ _ h19, except_bind_ok]
        rfl)
    rw [hys, except_bind_ok]
    obtain ⟨rows, hrows, _⟩ := mapM_ok_of_all
      (rowLine (if strContains pd.y_label "Price" then 2 else 1) ys.reverse)
      ((List.range st.1.length).zip st.1) (by
        intro ip hip
        obtain ⟨i, row⟩ := ip
        have hi : i < st.1.length := List.mem_range.mp (List.of_mem_zip hip).1
        unfold rowLine
        by_cases hmod : i % 4 = 0
        · rw [if_pos hmod]
          have hilen : (i : Int) < (ys.reverse.length : Int) := by
            rw [List.length_reverse, hyslen, List.length_range]
            rw [hstd.1] at hi
            exact_mod_cast hi
          obtain ⟨yv, hyv, _⟩ := pyGet_ok_nonneg ys.reverse (i : Int) (by omega) hilen
          rw [hyv, except_bind_ok]
          exact ⟨_, rfl⟩
        · rw [if_neg hmod]
          exact ⟨_, rfl⟩)
    rw [hrows, except_bind_ok]
    exact ⟨_, rfl⟩
  · rw [if_neg hn1]
    simp only [except_pure_bind]
    have hxs : (0 : Rat) ≤ 1 := by norm_num
    have hbound : ∀ i : Nat, i < (sortByKey pd.data).length → (i : Rat) * 1 ≤ 78 := by
      intro i hi
      rw [hslen] at hi
      have hi0 : i = 0 := by omega
      rw [hi0]
      norm_num
    obtain ⟨st, hpts, hstd⟩ := drawPoints_ok (sortByKey pd.data) c 1 cv1 hd1 hsvals hxs hbound
    rw [hpts, except_bind_ok]
    obtain ⟨ys, hys, hyslen⟩ := mapM_ok_of_all
      (fun (i : Nat) => do
        let q ← qdiv ((c - c) * (i : Rat)) (((20 : Nat) : Rat) - 1)
        pure (c + q))
      (List.range 20) (by
        intro i _
        refine ⟨c + ((c - c) * (i : Rat)) / (((20 : Nat) : Rat) - 1), ?_⟩
        show (do
            let q ← qdiv ((c - c) * (i : Rat)) (((20 : Nat) : Rat) - 1)
            pure (c + q) : Except String Rat)
          = Except.ok (c + ((c - c) * (i : Rat)) / (((20 : Nat) : Rat) - 1))
        rw [qdiv_ok _ _ h19, except_bind_ok]
        rfl)
    rw [hys, except_bind_ok]
    obtain ⟨rows, hrows, _⟩ := mapM_ok_of_all
      (rowLine (if strContains pd.y_label "Price" then 2 else 1) ys.reverse)
      ((List.range st.1.length).zip st.1) (by
        intro ip hip
        obtain ⟨i, row⟩ := ip
        have hi : i < st.1.length := List.mem_range.mp (List.of_mem_zip hip).1
        unfold rowLine
        by_cases hmod : i % 4 = 0
        · rw [if_pos hmod]
          have hilen : (i : Int) < (ys.reverse.length : Int) := by
            rw [List.length_reverse, hyslen, List.length_range]
            rw [hstd.1] at hi
            exact_mod_cast hi
          obtain ⟨yv, hyv, _⟩ := pyGet_ok_nonneg ys.reverse (i : Int) (by omega) hilen
          rw [hyv, except_bind_ok]
          exact ⟨_, rfl⟩
        · rw [if_neg hmod]
          exact ⟨_, rfl⟩)
    rw [hrows, except_bind_ok]
    exact ⟨_, rfl⟩

/-- Witness for claim C8: a concrete two-point flat series renders. -/
theorem plot_ascii_const_ok_witness :
    ∃ s, plot_ascii ({ title := "T", x_label := "X", y_label := "Y",
                       data := [("a", 1), ("b", 1)],
                       interval := some "hour" } : PlottableData) 80 20
      = Except.ok s :=
  plot_ascii_const_ok
    ({ title := "T", x_label := "X", y_label := "Y",
       data := [("a", 1), ("b", 1)],
       interval := some "hour" } : PlottableData) 1
    (by decide) (by decide)

/-- Witness for the amended claim C7 at a concrete minute-granularity
text. -/
theorem extract_minute_hour_key_shape_witness :
    isHHMMkey (("10:30", (9 : Rat)).1) = true :=
  extract_minute_hour_key_shape "10:30 Price: 9"
    { title := "Minutely Price Movement", x_label := "Time (Minutes)",
      y_label := "Price ($)", data := [("10:30", 9)], interval := some "minute" }
    (by decide) (Or.inl (by decide)) ("10:30", (9 : Rat)) (by decide)

/-- Claim C6: the year extraction pattern does not make the whole
Billion suffix optional — only its leading letter B and its final letter n
are optional, the letters i l l i o are mandatory and must follow the
numeric token immediately — so the spec example with a space before the
word Billion produces no match at all and extraction returns the no-data
signal, while the same text without the space extracts the expected pair. -/
theorem extract_year_billion_space_no_data :
    detect_time_pattern "2023 Value: 5.2 Billion" = ("%Y", "year")
    ∧ extract_numeric_data "2023 Value: 5.2 Billion" = none
    ∧ extract_numeric_data "2023 Value: 5.2Billion"
        = some { title := "Yearly Price Movement", x_label := "Year",
                 y_label := "Value ($B)", data := [("2023", mkRat 26 5)],
                 interval := some "year" } := by
  decide

end FinSight
